import Mathlib

/-!
Verification of the saba browser rewrite (TomatoCakePasta/making-browser).

Rust strings are modelled as `List Char` (the sources only manipulate them
through char-based patterns, so byte indices and char indices agree on the
inputs the claims range over).  Fallible or panicking Rust code is modelled
with `Option`/`Except`; `none` encodes a panic (out-of-bounds index,
`unimplemented!`, arithmetic overflow in debug builds).  Machine integers
`u64`/`u32`/`i64` are modelled as `Nat` with explicit `% 2 ^ w` where
overflow matters; all layout arithmetic in the claims only involves
non-negative quantities.
-/

/-- A char-list model of a Rust `String` / `&str`. -/
abbrev Str := List Char

/-- The double-quote character (code 34). -/
def dquote : Char := Char.ofNat 34

/-- The single-quote character (code 39). -/
def squote : Char := Char.ofNat 39

/-! Shared models of the Rust standard string operations the sources use. -/

namespace RustStr

/-- Rust `str::contains(pat)`: `pat` occurs as a contiguous substring. -/
def containsSub (pat : Str) : Str → Bool
  | [] => pat.isPrefixOf []
  | c :: cs => pat.isPrefixOf (c :: cs) || containsSub pat cs

/-- The loop of `str::trim_start_matches(pat)` with a structural fuel
(each successful strip removes at least one character, so `s.length` fuel
is never exhausted; structural recursion keeps the definition computable
by the kernel). -/
def trimAux (pat : Str) : Nat → Str → Str
  | 0, s => s
  | fuel + 1, s =>
    if pat ≠ [] ∧ pat.isPrefixOf s = true then trimAux pat fuel (s.drop pat.length)
    else s

/-- Rust `str::trim_start_matches(pat)`: repeatedly removes `pat` from the
front while it is a prefix. -/
def trimStartMatches (pat s : Str) : Str := trimAux pat s.length s

/-- Rust `str::splitn(2, sep)` / `split_once(sep)` for a single-char
separator: split at the first occurrence or `none` if `sep` is absent. -/
def splitOnce (sep : Char) : Str → Option (Str × Str)
  | [] => none
  | c :: cs =>
    if c = sep then some ([], cs)
    else (splitOnce sep cs).map (fun p => (c :: p.1, p.2))

/-- The `Vec<&str>` produced by `splitn(2, sep).collect()`. -/
def splitn2 (sep : Char) (s : Str) : List Str :=
  match splitOnce sep s with
  | some (a, b) => [a, b]
  | none => [s]

/-- Rust `str::split_once(pat)` for a multi-char pattern: split around the
first occurrence of `pat`. -/
def splitOnceStr (pat : Str) : Str → Option (Str × Str)
  | [] => if pat = [] then some ([], []) else none
  | c :: cs =>
    if pat.isPrefixOf (c :: cs) then some ([], (c :: cs).drop pat.length)
    else (splitOnceStr pat cs).map (fun p => (c :: p.1, p.2))

/-- Rust `str::find(c)`: index of the first occurrence of `c`. -/
def findChar (sep : Char) : Str → Option Nat
  | [] => none
  | c :: cs => if c = sep then some 0 else (findChar sep cs).map (· + 1)

/-- Rust `str::trim_start`: drop leading whitespace. -/
def trimStart (s : Str) : Str := s.dropWhile Char.isWhitespace

/-- Rust `str::trim`: drop leading and trailing whitespace. -/
def trimBoth (s : Str) : Str :=
  ((s.dropWhile Char.isWhitespace).reverse.dropWhile Char.isWhitespace).reverse

/-- Rust `str::replace("\r\n", "\n")`: left-to-right, non-overlapping. -/
def replaceCrLf : Str → Str
  | [] => []
  | '\r' :: '\n' :: rest => '\n' :: replaceCrLf rest
  | c :: rest => c :: replaceCrLf rest

/-- Rust `str::split(sep).collect::<Vec<_>>()` for a char separator. -/
def splitAll (sep : Char) (s : Str) : List Str := List.splitOn sep s

/-- Rust `str::parse::<u32>().unwrap_or(404)`: an optional leading `+`,
then one or more ASCII digits whose value fits in `u32`; anything else
falls back to `404`. -/
def parseU32Or404 (s : Str) : Nat :=
  let digits := match s with
    | '+' :: rest => rest
    | _ => s
  if digits ≠ [] ∧ digits.all Char.isDigit then
    let v := digits.foldl (fun acc c => acc * 10 + (c.toNat - 48)) 0
    if v < 2 ^ 32 then v else 404
  else 404

end RustStr

/-! ## ch4 `saba_core/src/url.rs` -/

namespace SabaUrl

open RustStr

/-- The `Url` struct of `url.rs` (fields `url`, `host`, `port`, `path`,
`searchpart`). -/
structure Url where
  url : Str
  host : Str
  port : Str
  path : Str
  searchpart : Str
deriving Repr, DecidableEq

/-- `Url::new`: stores the raw url and empties the other fields. -/
def Url.new (url : Str) : Url :=
  { url := url, host := [], port := [], path := [], searchpart := [] }

/-- The pattern `"http://"` used by `is_http` and `trim_start_matches`. -/
def httpScheme : Str := ['h', 't', 't', 'p', ':', '/', '/']

/-- `Url::is_http`: `self.url.contains("http://")` (substring containment,
not a prefix test). -/
def Url.is_http (u : Url) : Bool := containsSub httpScheme u.url

/-- The shared prelude of the four extractors:
`self.url.trim_start_matches("http://").splitn(2, "/").collect()`. -/
def Url.urlParts (u : Url) : List Str :=
  splitn2 '/' (trimStartMatches httpScheme u.url)

/-- `Url::extract_host`. -/
def Url.extract_host (u : Url) : Str :=
  let p0 := u.urlParts.getD 0 []
  match findChar ':' p0 with
  | some i => p0.take i
  | none => p0

/-- `Url::extract_port` (default `"80"`). -/
def Url.extract_port (u : Url) : Str :=
  let p0 := u.urlParts.getD 0 []
  match findChar ':' p0 with
  | some i => p0.drop (i + 1)
  | none => ['8', '0']

/-- `Url::extract_path`. -/
def Url.extract_path (u : Url) : Str :=
  let parts := u.urlParts
  if parts.length < 2 then []
  else (splitn2 '?' (parts.getD 1 [])).getD 0 []

/-- `Url::extract_searchpart`. -/
def Url.extract_searchpart (u : Url) : Str :=
  let parts := u.urlParts
  if parts.length < 2 then []
  else
    let ps := splitn2 '?' (parts.getD 1 [])
    if ps.length < 2 then [] else ps.getD 1 []

/-- `Url::parse`: reject non-http input, otherwise fill the four fields. -/
def Url.parse (u : Url) : Except Str Url :=
  if u.is_http then
    .ok { u with
          host := u.extract_host
          port := u.extract_port
          path := u.extract_path
          searchpart := u.extract_searchpart }
  else
    .error ("Only HTTP scheme is supported.".toList)

end SabaUrl

/-! ## ch6 `saba_core/src/http.rs` -/

namespace SabaHttp

open RustStr

/-- The error enum of `saba_core/src/error.rs`. -/
inductive Error where
  | network (msg : Str)
  | unexpectedInput (msg : Str)
  | invalidUI (msg : Str)
  | other (msg : Str)
deriving Repr, DecidableEq

/-- The `Header` struct of `http.rs`. -/
structure Header where
  name : Str
  value : Str
deriving Repr, DecidableEq

/-- The `HttpResponse` struct of `http.rs` (`status_code` is a `u32`). -/
structure HttpResponse where
  version : Str
  status_code : Nat
  reason : Str
  headers : List Header
  body : Str
deriving Repr, DecidableEq

/-- The header loop of `HttpResponse::new`: each line is split with
`splitn(2, ':')` and then indexed at `[0]` and `[1]`; a line without `':'`
yields a one-element split, so `splitted_header[1]` panics (`none`). -/
def parseHeaders : List Str → Option (List Header)
  | [] => some []
  | line :: rest =>
    match splitOnce ':' line with
    | some (n, v) =>
      (parseHeaders rest).map (fun hs => ⟨trimBoth n, trimBoth v⟩ :: hs)
    | none => none

/-- `HttpResponse::new`.  The result is `none` when the Rust code panics
(out-of-bounds index on a split header or a short status line). -/
def HttpResponse.new (raw_response : Str) : Option (Except Error HttpResponse) :=
  let preprocessed := replaceCrLf (trimStart raw_response)
  match splitOnceStr ['\n'] preprocessed with
  | none => some (.error (.network (
      "invalid http response: ".toList ++ preprocessed)))
  | some (status_line, remaining) =>
    let headersBody : Option (List Header × Str) :=
      match splitOnceStr ['\n', '\n'] remaining with
      | some (h, b) => (parseHeaders (splitAll '\n' h)).map (fun hs => (hs, b))
      | none => some ([], remaining)
    match headersBody with
    | none => none
    | some (headers, body) =>
      let statuses := splitAll ' ' status_line
      match statuses.get? 0, statuses.get? 1, statuses.get? 2 with
      | some v, some sc, some r =>
        some (.ok { version := v
                    status_code := parseU32Or404 sc
                    reason := r
                    headers := headers
                    body := body })
      | _, _, _ => none

end SabaHttp

/-! ## ch6 `saba_core/src/renderer/html/token.rs` -/

namespace SabaHtmlTok

/-- Modelled from the spec: `renderer/html/attribute.rs` is not among the
provided sources.  Spec §3: "Attribute — a pair of name and value, both
mutable during tokenization (characters are appended one at a time as the
tokenizer progresses through an attribute)".  `add_char(c, true)` appends
to the name and `add_char(c, false)` to the value, exactly as exercised by
the repository's own tests in `token.rs` and `parser.rs`. -/
structure Attribute where
  name : Str
  value : Str
deriving Repr, DecidableEq

/-- `Attribute::new`. -/
def Attribute.new : Attribute := ⟨[], []⟩

/-- `Attribute::add_char(c, is_name)`. -/
def Attribute.add_char (a : Attribute) (c : Char) (is_name : Bool) : Attribute :=
  if is_name then { a with name := a.name ++ [c] }
  else { a with value := a.value ++ [c] }

/-- The `HtmlToken` enum of `token.rs`. -/
inductive HtmlToken where
  | startTag (tag : Str) (self_closing : Bool) (attributes : List Attribute)
  | endTag (tag : Str)
  | char (c : Char)
  | eof
deriving Repr, DecidableEq

/-- The `State` enum of `token.rs`. -/
inductive TokState where
  | data
  | tagOpen
  | endTagOpen
  | tagName
  | beforeAttributeName
  | attributeName
  | afterAttributeName
  | beforeAttributeValue
  | attributeValueDoubleQuoted
  | attributeValueSingleQuoted
  | attributeValueUnquoted
  | afterAttributeValueQuoted
  | selfClosingStartTag
  | scriptData
  | scriptDataLessThanSign
  | scriptDataEndTagOpen
  | scriptDataEndTagName
  | temporaryBuffer
deriving Repr, DecidableEq

/-- The `HtmlTokenizer` struct of `token.rs`. -/
structure HtmlTokenizer where
  state : TokState
  pos : Nat
  reconsume : Bool
  latest_token : Option HtmlToken
  input : Str
  buf : Str
deriving Repr, DecidableEq

/-- `HtmlTokenizer::new`. -/
def HtmlTokenizer.new (html : Str) : HtmlTokenizer :=
  { state := .data, pos := 0, reconsume := false, latest_token := none,
    input := html, buf := [] }

/-- `HtmlTokenizer::is_eof`: `self.pos > self.input.len()`. -/
def HtmlTokenizer.is_eof (t : HtmlTokenizer) : Bool := t.pos > t.input.length

/-- `consume_next_input` / `reconsume_input`, selected by the `reconsume`
flag; `none` models the out-of-bounds panic (`self.input[self.pos]` with
`pos = len`, or `pos - 1` underflowing at `pos = 0`). -/
def readInput (t : HtmlTokenizer) : Option (Char × HtmlTokenizer) :=
  if t.reconsume then
    if t.pos = 0 then none
    else (t.input.get? (t.pos - 1)).map (fun c => (c, { t with reconsume := false }))
  else
    (t.input.get? t.pos).map (fun c => (c, { t with pos := t.pos + 1 }))

/-- `create_tag(start_tag_token)`. -/
def createTag (t : HtmlTokenizer) (start_tag_token : Bool) : HtmlTokenizer :=
  if start_tag_token then
    { t with latest_token := some (.startTag [] false []) }
  else
    { t with latest_token := some (.endTag []) }

/-- `append_tag_name(c)`; `none` models the `assert!` / `panic!`. -/
def appendTagName (t : HtmlTokenizer) (c : Char) : Option HtmlTokenizer :=
  match t.latest_token with
  | some (.startTag tag sc attrs) =>
    some { t with latest_token := some (.startTag (tag ++ [c]) sc attrs) }
  | some (.endTag tag) =>
    some { t with latest_token := some (.endTag (tag ++ [c])) }
  | _ => none

/-- `take_latest_token`; `none` models the `assert!(latest.is_some())`. -/
def takeLatestToken (t : HtmlTokenizer) : Option (HtmlToken × HtmlTokenizer) :=
  match t.latest_token with
  | some tok => some (tok, { t with latest_token := none })
  | none => none

/-- `start_new_attribute`; `none` models the panics on non-StartTag. -/
def startNewAttribute (t : HtmlTokenizer) : Option HtmlTokenizer :=
  match t.latest_token with
  | some (.startTag tag sc attrs) =>
    some { t with latest_token := some (.startTag tag sc (attrs ++ [Attribute.new])) }
  | _ => none

/-- `append_attribute(c, is_name)`; `none` models the panics
(non-StartTag latest token or an empty attribute vector). -/
def appendAttribute (t : HtmlTokenizer) (c : Char) (is_name : Bool) :
    Option HtmlTokenizer :=
  match t.latest_token with
  | some (.startTag tag sc attrs) =>
    match attrs.getLast? with
    | some a =>
      let attrs2 := attrs.dropLast ++ [a.add_char c is_name]
      some { t with latest_token := some (.startTag tag sc attrs2) }
    | none => none
  | _ => none

/-- `set_self_closing_flag`; `none` models the panics. -/
def setSelfClosingFlag (t : HtmlTokenizer) : Option HtmlTokenizer :=
  match t.latest_token with
  | some (.startTag tag _ attrs) =>
    some { t with latest_token := some (.startTag tag true attrs) }
  | _ => none

/-- One pass through the `loop` body of `Iterator::next` for
`HtmlTokenizer`: either `continue` with an updated tokenizer, or `return`
an emitted token; `none` models a panic. -/
inductive IterStep where
  | cont (t : HtmlTokenizer)
  | emit (t : HtmlTokenizer) (tok : HtmlToken)
deriving Repr, DecidableEq

/-- The body of `HtmlTokenizer::next`'s `loop`, straight from the source:
read one input char (honouring `reconsume`) and dispatch on the state.
`Char.isAlpha`, `Char.isUpper` and `Char.toLower` coincide with Rust's
`is_ascii_alphabetic`, `is_ascii_uppercase` and `to_ascii_lowercase`. -/
def iter (t0 : HtmlTokenizer) : Option IterStep :=
  match readInput t0 with
  | none => none
  | some (c, t) =>
    match t.state with
    | .data =>
      if c = '<' then some (.cont { t with state := .tagOpen })
      else if t.is_eof then some (.emit t .eof)
      else some (.emit t (.char c))
    | .tagOpen =>
      if c = '/' then some (.cont { t with state := .endTagOpen })
      else if c.isAlpha then
        some (.cont (createTag { t with reconsume := true, state := .tagName } true))
      else if t.is_eof then some (.emit t .eof)
      else some (.cont { t with reconsume := true, state := .data })
    | .endTagOpen =>
      if t.is_eof then some (.emit t .eof)
      else if c.isAlpha then
        some (.cont (createTag { t with reconsume := true, state := .tagName } false))
      else some (.cont t)
    | .tagName =>
      if c = ' ' then some (.cont { t with state := .beforeAttributeName })
      else if c = '/' then some (.cont { t with state := .selfClosingStartTag })
      else if c = '>' then
        (takeLatestToken { t with state := .data }).map (fun p => .emit p.2 p.1)
      else if c.isUpper then (appendTagName t c.toLower).map .cont
      else if t.is_eof then some (.emit t .eof)
      else (appendTagName t c).map .cont
    | .beforeAttributeName =>
      if c = '/' ∨ c = '>' ∨ t.is_eof then
        some (.cont { t with reconsume := true, state := .afterAttributeName })
      else
        (startNewAttribute
          { t with reconsume := true, state := .attributeName }).map .cont
    | .attributeName =>
      if c = ' ' ∨ c = '/' ∨ c = '>' ∨ t.is_eof then
        some (.cont { t with reconsume := true, state := .afterAttributeName })
      else if c = '=' then some (.cont { t with state := .beforeAttributeValue })
      else if c.isUpper then (appendAttribute t c.toLower true).map .cont
      else (appendAttribute t c true).map .cont
    | .afterAttributeName =>
      if c = ' ' then some (.cont t)
      else if c = '/' then some (.cont { t with state := .selfClosingStartTag })
      else if c = '=' then some (.cont { t with state := .beforeAttributeValue })
      else if c = '>' then
        (takeLatestToken { t with state := .data }).map (fun p => .emit p.2 p.1)
      else if t.is_eof then some (.emit t .eof)
      else
        (startNewAttribute
          { t with reconsume := true, state := .attributeName }).map .cont
    | .beforeAttributeValue =>
      if c = ' ' then some (.cont t)
      else if c = dquote then
        some (.cont { t with state := .attributeValueDoubleQuoted })
      else if c = squote then
        some (.cont { t with state := .attributeValueSingleQuoted })
      else some (.cont { t with reconsume := true, state := .attributeValueUnquoted })
    | .attributeValueDoubleQuoted =>
      if c = dquote then some (.cont { t with state := .afterAttributeValueQuoted })
      else if t.is_eof then some (.emit t .eof)
      else (appendAttribute t c false).map .cont
    | .attributeValueSingleQuoted =>
      if c = squote then some (.cont { t with state := .afterAttributeValueQuoted })
      else if t.is_eof then some (.emit t .eof)
      else (appendAttribute t c false).map .cont
    | .attributeValueUnquoted =>
      if c = ' ' then some (.cont { t with state := .beforeAttributeName })
      else if c = '>' then
        (takeLatestToken { t with state := .data }).map (fun p => .emit p.2 p.1)
      else if t.is_eof then some (.emit t .eof)
      else (appendAttribute t c false).map .cont
    | .afterAttributeValueQuoted =>
      if c = ' ' then some (.cont { t with state := .beforeAttributeName })
      else if c = '/' then some (.cont { t with state := .selfClosingStartTag })
      else if c = '>' then
        (takeLatestToken { t with state := .data }).map (fun p => .emit p.2 p.1)
      else if t.is_eof then some (.emit t .eof)
      else some (.cont { t with reconsume := true, state := .beforeAttributeValue })
    | .selfClosingStartTag =>
      if c = '>' then
        (setSelfClosingFlag t).bind (fun t1 =>
          (takeLatestToken { t1 with state := .data }).map (fun p => .emit p.2 p.1))
      else if t.is_eof then some (.emit t .eof)
      else some (.cont t)
    | .scriptData =>
      if c = '<' then some (.cont { t with state := .scriptDataLessThanSign })
      else if t.is_eof then some (.emit t .eof)
      else some (.emit t (.char c))
    | .scriptDataLessThanSign =>
      if c = '/' then
        some (.cont { t with buf := [], state := .scriptDataEndTagOpen })
      else some (.emit { t with reconsume := true, state := .scriptData } (.char '<'))
    | .scriptDataEndTagOpen =>
      if c.isAlpha then
        some (.cont (createTag
          { t with reconsume := true, state := .scriptDataEndTagName } false))
      else some (.emit { t with reconsume := true, state := .scriptData } (.char '<'))
    | .scriptDataEndTagName =>
      if c = '>' then
        (takeLatestToken { t with state := .data }).map (fun p => .emit p.2 p.1)
      else if c.isAlpha then
        (appendTagName { t with buf := t.buf ++ [c] } c.toLower).map .cont
      else
        some (.cont { t with state := .temporaryBuffer,
                             buf := '<' :: '/' :: (t.buf ++ [c]) })
    | .temporaryBuffer =>
      if t.buf.length = 0 then
        some (.cont { t with reconsume := true, state := .scriptData })
      else
        match t.buf with
        | c0 :: rest => some (.emit { t with reconsume := true, buf := rest } (.char c0))
        | [] => none

/-- Iterate `iter` until a token is returned; `none` models a panic or a
diverging run longer than `fuel` steps. -/
def nextAux : Nat → HtmlTokenizer → Option (HtmlTokenizer × HtmlToken)
  | 0, _ => none
  | fuel + 1, t =>
    match iter t with
    | none => none
    | some (.cont t') => nextAux fuel t'
    | some (.emit t' tok) => some (t', tok)

/-- `HtmlTokenizer::next`: the guard `pos >= input.len()` returns `None`
(inner `none`); otherwise run the loop. -/
def HtmlTokenizer.next (fuel : Nat) (t : HtmlTokenizer) :
    Option (Option (HtmlToken × HtmlTokenizer)) :=
  if t.pos ≥ t.input.length then some none
  else (nextAux fuel t).map (fun p => some (p.2, p.1))

/-- No ASCII uppercase letter occurs in `s`. -/
def noUpper (s : Str) : Bool := s.all (fun c => !c.isUpper)

/-- The tag name and all attribute names of a token are free of ASCII
uppercase letters. -/
def tokNamesLower : HtmlToken → Bool
  | .startTag tag _ attrs => noUpper tag && attrs.all (fun a => noUpper a.name)
  | .endTag tag => noUpper tag
  | _ => true

/-- The in-progress token (if any) has lowercase tag and attribute names. -/
def latestOk (t : HtmlTokenizer) : Bool :=
  match t.latest_token with
  | none => true
  | some tok => tokNamesLower tok

end SabaHtmlTok

/-! ## ch6 `saba_core/src/renderer/html/parser.rs` (DOM insertion) -/

namespace SabaHtmlParse

open SabaHtmlTok (Attribute)

/-- Modelled from the spec: `renderer/dom/node.rs` is not among the
provided sources.  Spec §3 "Node": a kind (`Document`, `Element`, `Text`)
plus first-child, last-child (weak), next-sibling, previous-sibling (weak)
and parent (weak) links.  Following the arena alternative sanctioned in
spec §9, the links are integer ids into a node arena. -/
inductive NodeKind where
  | document
  | element (tag : Str) (attributes : List Attribute)
  | text (s : Str)
deriving Repr, DecidableEq

/-- A DOM node with its five links (arena representation). -/
structure DomNode where
  kind : NodeKind
  parent : Option Nat
  first_child : Option Nat
  last_child : Option Nat
  previous_sibling : Option Nat
  next_sibling : Option Nat
deriving Repr, DecidableEq

/-- `Node::new`: a fresh node with all links unset. -/
def DomNode.new (kind : NodeKind) : DomNode :=
  { kind := kind, parent := none, first_child := none, last_child := none,
    previous_sibling := none, next_sibling := none }

/-- The node arena; id 0 is the `Window`'s `Document` root. -/
structure Dom where
  nodes : List DomNode
deriving Repr, DecidableEq

/-- Dereference an id (indexing is always in range in the runs the claims
quantify over). -/
def Dom.get (d : Dom) (i : Nat) : DomNode := d.nodes.getD i (DomNode.new .document)

/-- Update the node at id `i`. -/
def Dom.modify (d : Dom) (i : Nat) (f : DomNode → DomNode) : Dom :=
  ⟨d.nodes.set i (f (d.get i))⟩

/-- The `HtmlParser` state that `insert_element` touches: the window's DOM
and the stack of open elements (`Vec`, top at the end). -/
structure ParserSt where
  dom : Dom
  stack_of_open_elements : List Nat
deriving Repr, DecidableEq

/-- The `loop` in `insert_element` that walks `next_sibling` links from the
first child until a node with no next sibling; `fuel` bounds the walk (the
Rust loop runs unboundedly, and the arena walk needs at most one step per
node on the acyclic chains the claims quantify over). -/
def lastSiblingFrom (d : Dom) : Nat → Nat → Nat
  | 0, i => i
  | fuel + 1, i =>
    match (d.get i).next_sibling with
    | some j => lastSiblingFrom d fuel j
    | none => i

/-- `HtmlParser::insert_element` (parser.rs lines 163-217): take the stack
top (or the document root), append the new element after the last sibling
of the current node's first child (or as first child), set the weak
previous-sibling link to the first child, update last-child and parent,
and push the new node onto the stack of open elements. -/
def insertElement (p : ParserSt) (tag : Str) (attributes : List Attribute) :
    ParserSt :=
  let current := p.stack_of_open_elements.getLast?.getD 0
  let newId := p.dom.nodes.length
  let d1 : Dom := ⟨p.dom.nodes ++ [DomNode.new (.element tag attributes)]⟩
  let d2 :=
    match (d1.get current).first_child with
    | some fc =>
      let last := lastSiblingFrom d1 d1.nodes.length fc
      let da := d1.modify last (fun n => { n with next_sibling := some newId })
      da.modify newId (fun n => { n with previous_sibling := some fc })
    | none =>
      d1.modify current (fun n => { n with first_child := some newId })
  let d3 := d2.modify current (fun n => { n with last_child := some newId })
  let d4 := d3.modify newId (fun n => { n with parent := some current })
  { dom := d4, stack_of_open_elements := p.stack_of_open_elements ++ [newId] }

/-- `sibChain d i l`: starting at id `i`, following `next_sibling` links
visits exactly the ids in `l` and ends at a node with no next sibling. -/
def sibChain (d : Dom) : Nat → List Nat → Prop
  | _, [] => False
  | i, [j] => i = j ∧ (d.get j).next_sibling = none
  | i, j :: j2 :: rest => i = j ∧ (d.get j).next_sibling = some j2 ∧
      sibChain d j2 (j2 :: rest)

end SabaHtmlParse

/-! ## ch6 `saba_core/src/renderer/layout/layout_object.rs` -/

namespace SabaLayout

open SabaHtmlParse (NodeKind)

/-- The `LayoutObjectKind` enum. -/
inductive LayoutObjectKind where
  | block
  | inline
  | text
deriving Repr, DecidableEq

/-- The `FontSize` enum of `computed_style.rs` (spec §3). -/
inductive FontSize where
  | medium
  | xLarge
  | xxLarge
deriving Repr, DecidableEq

/-- The `DisplayType` enum of `computed_style.rs` (spec §3). -/
inductive DisplayType where
  | block
  | inline
  | displayNone
deriving Repr, DecidableEq

/-- The `TextDecoration` enum of `computed_style.rs` (spec §3). -/
inductive TextDecoration where
  | none
  | underline
deriving Repr, DecidableEq

/-- Modelled from the spec: `computed_style.rs` is not among the provided
sources.  Spec §3 "ComputedStyle": resolved `background_color`, `color`,
`display`, `font_size`, `text_decoration`.  The layout code under
verification only reads `display` and `font_size` and copies the style
wholesale into display items; colors are carried as opaque numeric codes. -/
structure ComputedStyle where
  background_color : Nat
  color : Nat
  display : DisplayType
  font_size : FontSize
  text_decoration : TextDecoration
deriving Repr, DecidableEq

/-- The `LayoutPoint` struct (`i64` fields; every value the claims range
over is non-negative, so coordinates are carried as `Nat`). -/
structure LayoutPoint where
  x : Nat
  y : Nat
deriving Repr, DecidableEq

/-- The `LayoutSize` struct (same `i64`-as-`Nat` convention). -/
structure LayoutSize where
  width : Nat
  height : Nat
deriving Repr, DecidableEq

/-- A layout-tree node.  `children` is the chain reached from
`first_child` by following `next_sibling` links; `node_kind` is the kind
of the DOM node the object is bound to (`self.node_kind()` in Rust). -/
structure LayoutObject where
  kind : LayoutObjectKind
  node_kind : NodeKind
  style : ComputedStyle
  point : LayoutPoint
  size : LayoutSize
  children : List LayoutObject
deriving Repr

/-- Modelled from the spec: `constants.rs` is not among the provided
sources; spec §6: "Constants (must be configured; values are
design-level)".  The layout definitions take the configuration as an
explicit record. -/
structure LayoutConsts where
  content_area_width : Nat
  window_width : Nat
  window_padding : Nat
  char_width : Nat
  char_height_with_padding : Nat
deriving Repr, DecidableEq

/-- The `ratio` computed from `self.style.font_size()` in `compute_size`
and `paint`: 1 for Medium, 2 for XLarge, 3 for XXLarge. -/
def fontSizeScale : FontSize → Nat
  | .medium => 1
  | .xLarge => 2
  | .xxLarge => 3

/-- The `while` loop of the `Block` arm of `compute_size`: a child's
height is added exactly when the previous child or the child itself is a
`Block` (`previous_child_kind` starts as `Block`). -/
def blockHeightLoop (prev : LayoutObjectKind) : List LayoutObject → Nat
  | [] => 0
  | c :: rest =>
    (if prev = .block ∨ c.kind = .block then c.size.height else 0) +
      blockHeightLoop c.kind rest

/-- `LayoutObject::compute_size` (layout_object.rs lines 196-273): the
`LayoutSize` value the function computes from the children's stored sizes
and the threaded `parent_size`.  `wrapping_rem` / `wrapping_div` on the
non-negative `i64` quantities involved are `%` and `/` (the claims carry
`0 < content_area_width`, under which Rust cannot hit division by zero). -/
def computeSize (k : LayoutConsts) (o : LayoutObject) (parent_size : LayoutSize) :
    LayoutSize :=
  match o.kind with
  | .block =>
    { width := parent_size.width, height := blockHeightLoop .block o.children }
  | .inline =>
    { width := (o.children.map (fun c => c.size.width)).sum,
      height := (o.children.map (fun c => c.size.height)).sum }
  | .text =>
    match o.node_kind with
    | .text t =>
      let r := fontSizeScale o.style.font_size
      let width := k.char_width * r * t.length
      if width > k.content_area_width then
        let line_num :=
          if width % k.content_area_width = 0 then width / k.content_area_width
          else width / k.content_area_width + 1
        { width := k.content_area_width,
          height := k.char_height_with_padding * r * line_num }
      else
        { width := width, height := k.char_height_with_padding * r }
    | _ => { width := 0, height := 0 }

/-- The `for i in (0..max_index).rev()` loop of
`find_index_for_line_break`, by descending index; out-of-range indexing
cannot occur at the call sites (the caller guarantees
`max_index < line.len()`), so reads use a non-space default. -/
def findBreakAux (line : Str) (max_index : Nat) : Nat → Nat
  | 0 => max_index
  | i + 1 => if line.getD i (Char.ofNat 0) = ' ' then i else findBreakAux line max_index i

/-- `find_index_for_line_break(line, max_index)`: nearest space strictly
below `max_index`, else `max_index`. -/
def findIndexForLineBreak (line : Str) (max_index : Nat) : Nat :=
  findBreakAux line max_index max_index

/-- `split_text(line, char_width)` (layout_object.rs lines 36-49).  The
Rust recursion `split_text(s.1.trim(), char_width)` is modelled with the
guard `h`: when trimming does not shorten the line the source recurses
forever (impossible in the runs the claims quantify over), and the model
then returns the two pieces as a junk value. -/
def splitTextAux (k : LayoutConsts) (char_width : Nat) : Nat → Str → List Str
  | 0, line => [line]
  | fuel + 1, line =>
    if line.length * char_width > k.window_width + k.window_padding then
      let idx := findIndexForLineBreak line ((k.window_width + k.window_padding) / char_width)
      let s0 := line.take idx
      let s1 := RustStr.trimBoth (line.drop idx)
      if s1.length < line.length then s0 :: splitTextAux k char_width fuel s1
      else [s0, s1]
    else [line]

/-- `split_text` run with fuel `line.length` (enough whenever the Rust
recursion terminates: the remainder shrinks by at least one character per
recursive call; fuel `0` forces the empty line, which the length test
sends to the non-recursive branch anyway). -/
def splitText (k : LayoutConsts) (line : Str) (char_width : Nat) : List Str :=
  splitTextAux k char_width line.length line

/-- The `plain_text` normalization in `paint`:
`t.replace("\n", " ").split(' ').filter(|s| !s.is_empty()).join(" ")`. -/
def normalizeText (t : Str) : Str :=
  let repl := t.map (fun c => if c = '\n' then ' ' else c)
  List.intercalate [' '] ((RustStr.splitAll ' ' repl).filter (fun w => w ≠ []))

/-- Modelled from the spec: `display_item.rs` is not among the provided
sources.  Spec §3 "DisplayItem": `Rect { style, point, size }` or
`Text { text, style, point }`. -/
inductive DisplayItem where
  | rect (style : ComputedStyle) (layout_point : LayoutPoint) (layout_size : LayoutSize)
  | text (text : Str) (style : ComputedStyle) (layout_point : LayoutPoint)
deriving Repr, DecidableEq

/-- The `for line in lines` loop of the `Text` arm of `paint`, with the
running counter `i`: item `i` is placed at
`(x, y + CHAR_HEIGHT_WITH_PADDING * i)` (nota bene: no font-size factor). -/
def paintLines (style : ComputedStyle) (x y chwp : Nat) :
    Nat → List Str → List DisplayItem
  | _, [] => []
  | i, l :: ls =>
    .text l style { x := x, y := y + chwp * i } :: paintLines style x y chwp (i + 1) ls

/-- `LayoutObject::paint` (layout_object.rs lines 136-194). -/
def paint (k : LayoutConsts) (o : LayoutObject) : List DisplayItem :=
  if o.style.display = .displayNone then []
  else
    match o.kind with
    | .block =>
      match o.node_kind with
      | .element _ _ => [.rect o.style o.point o.size]
      | _ => []
    | .inline => []
    | .text =>
      match o.node_kind with
      | .text t =>
        let r := fontSizeScale o.style.font_size
        let lines := splitText k (normalizeText t) (k.char_width * r)
        paintLines o.style o.point.x o.point.y k.char_height_with_padding 0 lines
      | _ => []

/-- Claim C2's reading of the Block height (written from the claim's
words, for comparison with the code): Block children add their heights,
and every maximal run of consecutive Inline children contributes the
MAXIMUM height of the run. -/
def claimBlockHeightAux : Nat → List (LayoutObjectKind × Nat) → Nat
  | 0, _ => 0
  | _ + 1, [] => 0
  | fuel + 1, (k, h) :: rest =>
    if k = .inline then
      (((rest.takeWhile (fun p => p.1 = .inline)).map Prod.snd).foldl max h) +
        claimBlockHeightAux fuel (rest.dropWhile (fun p => p.1 = .inline))
    else h + claimBlockHeightAux fuel rest

/-- The claim-side height, run with fuel `l.length` (every recursive call
passes a strictly shorter list, so the fuel is never exhausted). -/
def claimBlockHeight (l : List (LayoutObjectKind × Nat)) : Nat :=
  claimBlockHeightAux l.length l

/-- The amended reading of the Block height (what the code computes):
every maximal run of consecutive non-Block children contributes the height
of the FIRST child of the run; Block children add their own heights. -/
def amendedBlockHeightAux : Nat → List (LayoutObjectKind × Nat) → Nat
  | 0, _ => 0
  | _ + 1, [] => 0
  | fuel + 1, (k, h) :: rest =>
    if k = .block then h + amendedBlockHeightAux fuel rest
    else h + amendedBlockHeightAux fuel (rest.dropWhile (fun p => p.1 ≠ .block))

/-- The amended-claim height, run with fuel `l.length` (every recursive
call passes a strictly shorter list, so the fuel is never exhausted). -/
def amendedBlockHeight (l : List (LayoutObjectKind × Nat)) : Nat :=
  amendedBlockHeightAux l.length l

end SabaLayout

/-! ## ch5 `saba_core/src/renderer/css/token.rs` -/

namespace SabaCss

/-- The `CssToken` enum.  `Number(f64)` is carried as an exact rational;
no claim inspects float rounding. -/
inductive CssToken where
  | hashToken (s : Str)
  | delim (c : Char)
  | number (n : ℚ)
  | colon
  | semiColon
  | openParenthesis
  | closeParenthesis
  | openCurly
  | closeCurly
  | indent (s : Str)
  | stringToken (s : Str)
  | atKeyword (s : Str)
deriving Repr, DecidableEq

/-- `CssTokenizer::consume_string_token` (token.rs lines 40-57): loop
`{ if pos >= len return s; pos += 1; c = input[pos]; quote => break;
otherwise push c }`.  Returns the accumulated string and the final `pos`
(left on the terminating quote); `none` models the out-of-bounds panic
when `pos + 1 = len` inside the loop. -/
def consumeStringAux (input : Str) : Nat → Nat → Option (Str × Nat)
  | 0, pos => some ([], pos)
  | fuel + 1, pos =>
    if pos ≥ input.length then some ([], pos)
    else
      match input.get? (pos + 1) with
      | none => none
      | some c =>
        if c = dquote ∨ c = squote then some ([], pos + 1)
        else (consumeStringAux input fuel (pos + 1)).map (fun p => (c :: p.1, p.2))

/-- Wrapper running the loop with exact fuel `input.length - pos` (the
loop advances `pos` once per iteration and stops at `pos ≥ len`, so the
fuel is never exhausted and the two formulations agree). -/
def consumeStringToken (input : Str) (pos : Nat) : Option (Str × Nat) :=
  consumeStringAux input (input.length - pos) pos

/-- `CssTokenizer::consume_numeric_token`, threading the accumulator state
(`num`, `floating`, `floating_digit`); returns the value and the position
of the first non-numeric char. -/
def consumeNumericAux (input : Str) : Nat → ℚ → Bool → ℚ → Nat → ℚ × Nat
  | 0, num, _, _, pos => (num, pos)
  | fuel + 1, num, floating, floating_digit, pos =>
    if pos ≥ input.length then (num, pos)
    else
      let c := input.getD pos (Char.ofNat 0)
      if c.isDigit then
        if floating then
          consumeNumericAux input fuel
            (num + ((c.toNat - 48 : Nat) : ℚ) * (floating_digit * (1 / 10)))
            true (floating_digit * (1 / 10)) (pos + 1)
        else
          consumeNumericAux input fuel (num * 10 + ((c.toNat - 48 : Nat) : ℚ))
            floating floating_digit (pos + 1)
      else if c = '.' then
        consumeNumericAux input fuel num true floating_digit (pos + 1)
      else (num, pos)

/-- Wrapper with exact fuel `input.length - pos` (one `pos` increment per
iteration, stop at `pos ≥ len`, so the fuel is never exhausted). -/
def consumeNumericToken (input : Str) (num : ℚ) (floating : Bool)
    (floating_digit : ℚ) (pos : Nat) : ℚ × Nat :=
  consumeNumericAux input (input.length - pos) num floating floating_digit pos

/-- The `loop` of `consume_indent_token`: `pos += 1; c = input[pos]`
without a bounds check (`none` models the panic at end of input);
identifier chars are accumulated, anything else breaks. -/
def consumeIndentAuxF (input : Str) : Nat → Nat → Option (Str × Nat)
  | 0, _ => none
  | fuel + 1, pos =>
    if pos + 1 < input.length then
      let c := input.getD (pos + 1) (Char.ofNat 0)
      if c.isAlphanum ∨ c = '-' ∨ c = '_' then
        (consumeIndentAuxF input fuel (pos + 1)).map (fun p => (c :: p.1, p.2))
      else some ([], pos + 1)
    else none

/-- Wrapper with exact fuel `input.length - pos` (fuel `0` forces
`pos ≥ len`, where the bound check fails and the loop panics anyway). -/
def consumeIndentAux (input : Str) (pos : Nat) : Option (Str × Nat) :=
  consumeIndentAuxF input (input.length - pos) pos

/-- `CssTokenizer::consume_indent_token`: pushes `input[pos]` first
(panicking when out of range), then runs the loop. -/
def consumeIndentToken (input : Str) (pos : Nat) : Option (Str × Nat) :=
  match input.get? pos with
  | none => none
  | some c0 => (consumeIndentAux input pos).map (fun p => (c0 :: p.1, p.2))

/-- `Iterator::next` for `CssTokenizer` (token.rs lines 121-202) as a
function of the cursor: outer `none` models a panic or the
`unimplemented!` arm, inner `none` the end of input; otherwise the token
and the new cursor.  Rust checks `c1.is_ascii_alphabetic()` and Unicode
`is_alphanumeric()` after `'@'`; the model uses the ASCII classes (the
difference only concerns non-ASCII input, which no claim involves). -/
def cssNextAux (input : Str) : Nat → Nat → Option (Option (CssToken × Nat))
  | 0, _ => some none
  | fuel + 1, pos =>
    if pos ≥ input.length then some none
    else
    let c := input.getD pos (Char.ofNat 0)
    if c = '(' then some (some (.openParenthesis, pos + 1))
    else if c = ')' then some (some (.closeParenthesis, pos + 1))
    else if c = ',' then some (some (.delim ',', pos + 1))
    else if c = '.' then some (some (.delim '.', pos + 1))
    else if c = ':' then some (some (.colon, pos + 1))
    else if c = ';' then some (some (.semiColon, pos + 1))
    else if c = Char.ofNat 123 then some (some (.openCurly, pos + 1))
    else if c = Char.ofNat 125 then some (some (.closeCurly, pos + 1))
    else if c = ' ' ∨ c = '\n' then cssNextAux input fuel (pos + 1)
    else if c = dquote ∨ c = squote then
      (consumeStringToken input pos).map (fun p => some (.stringToken p.1, p.2 + 1))
    else if c.isDigit then
      let p := consumeNumericToken input 0 false 1 pos
      some (some (.number p.1, (p.2 - 1) + 1))
    else if c = '#' then
      (consumeIndentToken input pos).map (fun p => some (.hashToken p.1, (p.2 - 1) + 1))
    else if c = '-' then
      (consumeIndentToken input pos).map (fun p => some (.indent p.1, (p.2 - 1) + 1))
    else if c = '@' then
      match input.get? (pos + 1), input.get? (pos + 2), input.get? (pos + 3) with
      | some c1, some c2, some c3 =>
        if c1.isAlpha ∧ c2.isAlphanum ∧ c3.isAlphanum then
          (consumeIndentToken input (pos + 1)).map
            (fun p => some (.atKeyword p.1, (p.2 - 1) + 1))
        else some (some (.delim '@', pos + 1))
      | _, _, _ => none
    else if c.isAlpha ∨ c = '_' then
      (consumeIndentToken input pos).map (fun p => some (.indent p.1, (p.2 - 1) + 1))
    else none

/-- Wrapper with exact fuel `input.length - pos` (the loop only repeats
while skipping whitespace, advancing `pos` each time, and fuel `0` forces
`pos ≥ len`, the end-of-input return). -/
def cssNext (input : Str) (pos : Nat) : Option (Option (CssToken × Nat)) :=
  cssNextAux input (input.length - pos) pos

end SabaCss

/-! ## ch7 `saba_core/src/renderer/js/{ast.rs, runtime.rs}` -/

namespace SabaJs

/-- The `Node` enum of `ast.rs`; `Option<Rc<Node>>` children become
`Option JsNode`, `u64` literals become `Nat` (the parser only constructs
values below `2 ^ 64`). -/
inductive JsNode where
  | expressionStatement (expr : Option JsNode)
  | additiveExpression (operator : Char) (left : Option JsNode) (right : Option JsNode)
  | assignmentExpression (operator : Char) (left : Option JsNode) (right : Option JsNode)
  | memberExpression (object : Option JsNode) (property : Option JsNode)
  | numericalLiteral (value : Nat)
  | variableDeclaration (declarations : List (Option JsNode))
  | variableDeclarator (id : Option JsNode) (init : Option JsNode)
  | identifier (name : Str)
  | stringLiteral (value : Str)
deriving Repr

/-- The `RuntimeValue` enum of `runtime.rs`: numbers only (`u64`). -/
inductive RuntimeValue where
  | number (n : Nat)
deriving Repr, DecidableEq

/-- `Add for RuntimeValue`: `left_num + right_num` on `u64`.  Release
builds wrap modulo `2 ^ 64` (debug builds abort on overflow); the model
uses the wrapping semantics. -/
def RuntimeValue.add : RuntimeValue → RuntimeValue → RuntimeValue
  | .number l, .number r => .number ((l + r) % 2 ^ 64)

/-- `Sub for RuntimeValue`: `left_num - right_num` on `u64`.  Release
builds wrap modulo `2 ^ 64` (debug builds abort on underflow); the model
uses the wrapping semantics, so `1 - 2` yields `2 ^ 64 - 1`. -/
def RuntimeValue.sub : RuntimeValue → RuntimeValue → RuntimeValue
  | .number l, .number r => .number ((2 ^ 64 + l - r) % 2 ^ 64)

/-- `JsRuntime::eval` (runtime.rs lines 40-88).  The source matches only
five variants (its match is not exhaustive as written); following spec §9
("returning none from eval on these variants is acceptable") the remaining
variants evaluate to `none`. -/
def eval : Option JsNode → Option RuntimeValue
  | none => none
  | some (.expressionStatement expr) => eval expr
  | some (.additiveExpression op left right) =>
    match eval left with
    | none => none
    | some lv =>
      match eval right with
      | none => none
      | some rv =>
        if op = '+' then some (lv.add rv)
        else if op = '-' then some (lv.sub rv)
        else none
  | some (.assignmentExpression _ _ _) => none
  | some (.memberExpression _ _) => none
  | some (.numericalLiteral v) => some (.number v)
  | some (.variableDeclaration _) => none
  | some (.variableDeclarator _ _) => none
  | some (.identifier _) => none
  | some (.stringLiteral _) => none

end SabaJs

/-! ## Concrete fixtures used by witnesses and counterexamples -/

namespace Fixtures

/-- A concrete constants configuration (spec §6: the values are
design-level and must be configured). -/
def layoutConstsEx : SabaLayout.LayoutConsts :=
  { content_area_width := 5, window_width := 5, window_padding := 0,
    char_width := 1, char_height_with_padding := 10 }

/-- A concrete computed style with font size XLarge (ratio 2). -/
def styleEx : SabaLayout.ComputedStyle :=
  { background_color := 0, color := 0, display := .block,
    font_size := .xLarge, text_decoration := .none }

/-- An Inline layout object with a stored height. -/
def inlineChildEx (h : Nat) : SabaLayout.LayoutObject :=
  { kind := .inline, node_kind := .element ['a'] [], style := styleEx,
    point := ⟨0, 0⟩, size := ⟨0, h⟩, children := [] }

/-- A Block layout object with two consecutive Inline children of heights
1 and 2. -/
def blockObjEx : SabaLayout.LayoutObject :=
  { kind := .block, node_kind := .element ['p'] [], style := styleEx,
    point := ⟨0, 0⟩, size := ⟨0, 0⟩,
    children := [inlineChildEx 1, inlineChildEx 2] }

/-- A Text layout object holding `"aaa bbb"` at XLarge font size. -/
def textObjEx : SabaLayout.LayoutObject :=
  { kind := .text, node_kind := .text ['a', 'a', 'a', ' ', 'b', 'b', 'b'],
    style := styleEx, point := ⟨0, 0⟩, size := ⟨0, 0⟩, children := [] }

/-- A DOM arena whose document root (id 0) has two element children:
id 1 (`<a>`, first child) and id 2 (`<b>`, its next sibling). -/
def domEx : SabaHtmlParse.Dom := ⟨[
  { SabaHtmlParse.DomNode.new .document with
      first_child := some 1, last_child := some 2 },
  { SabaHtmlParse.DomNode.new (.element ['a'] []) with
      parent := some 0, next_sibling := some 2 },
  { SabaHtmlParse.DomNode.new (.element ['b'] []) with
      parent := some 0, previous_sibling := some 1 }]⟩

/-- A parser state whose stack of open elements holds the document root. -/
def parserEx : SabaHtmlParse.ParserSt := ⟨domEx, [0]⟩

/-- The HTML input `<p id="A">` (uppercase attribute value). -/
def inputPAEx : Str := ['<', 'p', ' ', 'i', 'd', '=', dquote, 'A', dquote, '>']

/-- The tokenizer state after `<p id="A">` has been fully consumed. -/
def tokAfterPAEx : SabaHtmlTok.HtmlTokenizer :=
  { state := .data, pos := 10, reconsume := false, latest_token := none,
    input := inputPAEx, buf := [] }

/-- The HTML input `<p>`. -/
def inputPEx : Str := ['<', 'p', '>']

/-- The tokenizer state after `<p>` has been fully consumed. -/
def tokAfterPEx : SabaHtmlTok.HtmlTokenizer :=
  { state := .data, pos := 3, reconsume := false, latest_token := none,
    input := inputPEx, buf := [] }

/-- The CSS input `"a'`: a double-quoted string closed by a single
quote. -/
def cssInputEx : Str := [dquote, 'a', squote]

/-- The JS AST for `1 - 2` over `u64` numbers. -/
def jsSubEx : Option SabaJs.JsNode :=
  some (.additiveExpression '-'
    (some (.numericalLiteral 1)) (some (.numericalLiteral 2)))

end Fixtures

/-! ## Shared helper lemmas -/

namespace RustStr

theorem splitOnce_eq_none_iff (sep : Char) (l : Str) :
    splitOnce sep l = none ↔ sep ∉ l := by
  induction l with
  | nil => simp [splitOnce]
  | cons c cs ih =>
    by_cases hc : c = sep
    · subst hc
      simp [splitOnce]
    · simp only [splitOnce, if_neg hc, Option.map_eq_none', ih,
        List.mem_cons]
      constructor
      · intro hn hmem
        rcases hmem with hmem | hmem
        · exact hc hmem.symm
        · exact hn hmem
      · intro hn hmem
        exact hn (Or.inr hmem)

theorem splitOnce_append (sep : Char) (l1 l2 : Str) (h : sep ∉ l1) :
    splitOnce sep (l1 ++ sep :: l2) = some (l1, l2) := by
  induction l1 with
  | nil => simp [splitOnce]
  | cons c cs ih =>
    have hc : c ≠ sep := by
      intro he
      exact h (he ▸ List.mem_cons_self c cs)
    have hcs : sep ∉ cs := fun hm => h (List.mem_cons_of_mem c hm)
    simp [splitOnce, if_neg hc, ih hcs]

theorem findChar_append (sep : Char) (l1 l2 : Str) (h : sep ∉ l1) :
    findChar sep (l1 ++ sep :: l2) = some l1.length := by
  induction l1 with
  | nil => simp [findChar]
  | cons c cs ih =>
    have hc : c ≠ sep := by
      intro he
      exact h (he ▸ List.mem_cons_self c cs)
    have hcs : sep ∉ cs := fun hm => h (List.mem_cons_of_mem c hm)
    simp [findChar, if_neg hc, ih hcs]

theorem trimAux_nil (pat : Str) (fuel : Nat) : trimAux pat fuel [] = [] := by
  cases fuel with
  | zero => rfl
  | succ f =>
    rw [trimAux, if_neg]
    intro hcon
    have := (List.isPrefixOf_iff_prefix.mp hcon.2)
    exact hcon.1 (List.prefix_nil.mp this)

theorem trimAux_congr (pat : Str) (fuel₁ : Nat) :
    ∀ fuel₂ s, s.length ≤ fuel₁ → s.length ≤ fuel₂ →
      trimAux pat fuel₁ s = trimAux pat fuel₂ s := by
  induction fuel₁ with
  | zero =>
    intro fuel₂ s h1 _
    have : s = [] := List.eq_nil_of_length_eq_zero (Nat.le_zero.mp h1)
    subst this
    rw [trimAux_nil, trimAux_nil]
  | succ f ih =>
    intro fuel₂ s h1 h2
    cases fuel₂ with
    | zero =>
      have : s = [] := List.eq_nil_of_length_eq_zero (Nat.le_zero.mp h2)
      subst this
      rw [trimAux_nil, trimAux_nil]
    | succ g =>
      rw [trimAux, trimAux]
      by_cases hc : pat ≠ [] ∧ pat.isPrefixOf s = true
      · rw [if_pos hc, if_pos hc]
        have hplen : 0 < pat.length := List.length_pos.mpr hc.1
        have hsl : (s.drop pat.length).length = s.length - pat.length :=
          List.length_drop _ _
        exact ih g (s.drop pat.length) (by omega) (by omega)
      · rw [if_neg hc, if_neg hc]

theorem trimStartMatches_step (pat rest : Str) (hne : pat ≠ []) :
    trimStartMatches pat (pat ++ rest) = trimStartMatches pat rest := by
  unfold trimStartMatches
  have hplen : 0 < pat.length := List.length_pos.mpr hne
  obtain ⟨k, hk⟩ : ∃ k, (pat ++ rest).length = k + 1 := by
    refine ⟨(pat ++ rest).length - 1, ?_⟩
    simp only [List.length_append]
    omega
  rw [hk, trimAux,
    if_pos ⟨hne, List.isPrefixOf_iff_prefix.mpr (List.prefix_append pat rest)⟩,
    List.drop_left]
  apply trimAux_congr
  · have := List.length_append pat rest
    omega
  · exact Nat.le_refl _

theorem trimStartMatches_of_not_prefix (pat s : Str)
    (h : pat.isPrefixOf s = false) : trimStartMatches pat s = s := by
  unfold trimStartMatches
  cases hl : s.length with
  | zero => rfl
  | succ k =>
    rw [trimAux, if_neg]
    intro hcon
    rw [hcon.2] at h
    exact Bool.true_eq_false.mp h

theorem containsSub_iff_infix (pat s : Str) :
    containsSub pat s = true ↔ pat <:+: s := by
  induction s with
  | nil =>
    simp [containsSub, List.isPrefixOf_iff_prefix, List.prefix_nil,
      List.infix_nil]
  | cons c cs ih =>
    simp [containsSub, List.isPrefixOf_iff_prefix, ih, List.infix_cons_iff]

end RustStr

namespace SabaHttp

theorem parseHeaders_eq_none (lines : List Str) (line : Str)
    (hmem : line ∈ lines) (hnc : ':' ∉ line) : parseHeaders lines = none := by
  induction lines with
  | nil => cases hmem
  | cons l rest ih =>
    rcases List.mem_cons.mp hmem with rfl | hmem'
    · rw [parseHeaders, (RustStr.splitOnce_eq_none_iff ':' line).mpr hnc]
    · rw [parseHeaders, ih hmem']
      cases hsp : RustStr.splitOnce ':' l with
      | none => rfl
      | some p =>
        obtain ⟨n, v⟩ := p
        rfl

end SabaHttp

/-! ## Claim C10 -/

/-- Claim C10 (confirmed): for every raw HTTP response whose header
section (as delimited by the code's own status-line split and blank-line
split) contains a line without a `':'`, `HttpResponse::new` panics — the
model returns `none`, the panic marker — instead of returning a `Network`
error, even though the status line is well formed (at least three
space-separated fields) and the blank separator line is present. -/
theorem c10_header_without_colon_panics
    (raw status_line rest hsec body line : Str)
    (h1 : RustStr.splitOnceStr ['\n'] (RustStr.replaceCrLf (RustStr.trimStart raw))
            = some (status_line, rest))
    (h2 : RustStr.splitOnceStr ['\n', '\n'] rest = some (hsec, body))
    (h3 : line ∈ RustStr.splitAll '\n' hsec)
    (h4 : ':' ∉ line)
    (h5 : 3 ≤ (RustStr.splitAll ' ' status_line).length) :
    SabaHttp.HttpResponse.new raw = none := by
  unfold SabaHttp.HttpResponse.new
  simp only [h1, h2,
    SabaHttp.parseHeaders_eq_none (RustStr.splitAll '\n' hsec) line h3 h4,
    Option.map_none']

/-- Witness for C10 at the concrete response
`"HTTP/1.1 200 OK\nBadHeader\n\nbody"`. -/
theorem c10_witness :
    SabaHttp.HttpResponse.new "HTTP/1.1 200 OK\nBadHeader\n\nbody".toList = none :=
  c10_header_without_colon_panics
    "HTTP/1.1 200 OK\nBadHeader\n\nbody".toList
    "HTTP/1.1 200 OK".toList
    "BadHeader\n\nbody".toList
    "BadHeader".toList
    "body".toList
    "BadHeader".toList
    (by decide) (by decide) (by decide) (by decide) (by decide)

/-! ## Claim C6 -/

/-- Counterexample to claim C6: the input `"xhttp://a"` does not begin
with `"http://"` (and is not of the shape `http://host[:port][/path]`),
yet `Url::parse` succeeds, because `is_http` tests substring containment
rather than a prefix. -/
theorem c6_counterexample :
    ¬ (SabaUrl.httpScheme <+: "xhttp://a".toList) ∧
    SabaUrl.Url.parse (SabaUrl.Url.new "xhttp://a".toList) =
      .ok { url := "xhttp://a".toList, host := "xhttp".toList, port := [],
            path := "/a".toList, searchpart := [] } := by
  constructor
  · decide
  · rfl

/-- Claim C6 as amended: `Url::parse` returns an error exactly when the
input does not CONTAIN `"http://"` as a substring — the scheme check is
containment, not a prefix test, so parsing succeeds on every string with
`"http://"` anywhere inside it, not only on URLs of the shape
`http://host[:port][/path[?query]]`. -/
theorem c6_error_iff_no_http_substring (s : Str) :
    (∃ msg, SabaUrl.Url.parse (SabaUrl.Url.new s) = .error msg) ↔
      ¬ (SabaUrl.httpScheme <:+: s) := by
  unfold SabaUrl.Url.parse
  by_cases h : SabaUrl.Url.is_http (SabaUrl.Url.new s)
  · rw [if_pos h]
    have hi : SabaUrl.httpScheme <:+: s :=
      (RustStr.containsSub_iff_infix _ _).mp h
    constructor
    · intro ⟨msg, hmsg⟩
      cases hmsg
    · intro hni
      exact absurd hi hni
  · rw [if_neg h]
    have hni : ¬ (SabaUrl.httpScheme <:+: s) := by
      intro hi
      exact h ((RustStr.containsSub_iff_infix _ _).mpr hi)
    constructor
    · intro _
      exact hni
    · intro _
      exact ⟨_, rfl⟩

/-! ## Claim C9 -/

/-- Counterexample to claim C9: evaluating `1 - 2` on unsigned 64-bit
numbers does not return none — under the release (wrapping) semantics of
Rust `u64` subtraction it returns `Number(2^64 - 1)` (and under debug
semantics the program aborts on the overflow; in neither case is `none`
returned). -/
theorem c9_counterexample :
    SabaJs.eval Fixtures.jsSubEx = some (.number (2 ^ 64 - 1)) ∧
    SabaJs.eval Fixtures.jsSubEx ≠ none := by
  have he : SabaJs.eval Fixtures.jsSubEx = some (.number (2 ^ 64 - 1)) := by
    simp [Fixtures.jsSubEx, SabaJs.eval, SabaJs.RuntimeValue.sub]
  exact ⟨he, by rw [he]; simp⟩

/-- Claim C9 as amended: `JsRuntime::eval` (wrapping semantics) returns a
value or none and never aborts, but a subtraction whose left `Number`
operand is smaller than its right operand evaluates to the wrapped value
`Number(2^64 + l - r)` — not to none. -/
theorem c9_sub_wraps (l r : Nat) (h : l < r) (hr : r < 2 ^ 64) :
    SabaJs.eval (some (.additiveExpression '-'
        (some (.numericalLiteral l)) (some (.numericalLiteral r))))
      = some (.number (2 ^ 64 + l - r)) ∧
    (some (SabaJs.RuntimeValue.number (2 ^ 64 + l - r)) :
        Option SabaJs.RuntimeValue) ≠ none := by
  refine ⟨?_, by simp⟩
  simp only [SabaJs.eval, SabaJs.RuntimeValue.sub]
  rw [if_neg (by decide), if_pos trivial, Nat.mod_eq_of_lt (by omega)]

/-- Witness for the amended C9 at `l = 1`, `r = 2`. -/
theorem c9_witness :
    SabaJs.eval (some (.additiveExpression '-'
        (some (.numericalLiteral 1)) (some (.numericalLiteral 2))))
      = some (.number (2 ^ 64 + 1 - 2)) :=
  (c9_sub_wraps 1 2 (by decide) (by decide)).1

/-! ## Claim C2 -/

namespace SabaLayout

theorem amendedBlockHeightAux_congr (fuel₁ : Nat) :
    ∀ fuel₂ l, l.length ≤ fuel₁ → l.length ≤ fuel₂ →
      amendedBlockHeightAux fuel₁ l = amendedBlockHeightAux fuel₂ l := by
  induction fuel₁ with
  | zero =>
    intro fuel₂ l h1 _
    have : l = [] := List.eq_nil_of_length_eq_zero (Nat.le_zero.mp h1)
    subst this
    cases fuel₂ <;> rfl
  | succ f ih =>
    intro fuel₂ l h1 h2
    cases l with
    | nil => cases fuel₂ <;> rfl
    | cons p rest =>
      cases fuel₂ with
      | zero => simp at h2
      | succ g =>
        obtain ⟨pk, ph⟩ := p
        rw [amendedBlockHeightAux, amendedBlockHeightAux]
        simp only [List.length_cons] at h1 h2
        have hdw : (rest.dropWhile (fun p => p.1 ≠ LayoutObjectKind.block)).length
            ≤ rest.length :=
          (List.dropWhile_sublist _).length_le
        by_cases hk : pk = .block
        · rw [if_pos hk, if_pos hk, ih g rest (by omega) (by omega)]
        · rw [if_neg hk, if_neg hk, ih g _ (by omega) (by omega)]

theorem amendedBlockHeight_cons (pk : LayoutObjectKind) (ph : Nat)
    (rest : List (LayoutObjectKind × Nat)) :
    amendedBlockHeight ((pk, ph) :: rest) =
      if pk = .block then ph + amendedBlockHeight rest
      else ph + amendedBlockHeight (rest.dropWhile (fun p => p.1 ≠ .block)) := by
  unfold amendedBlockHeight
  rw [List.length_cons, amendedBlockHeightAux]
  have hdw : (rest.dropWhile (fun p => p.1 ≠ LayoutObjectKind.block)).length
      ≤ rest.length :=
    (List.dropWhile_sublist _).length_le
  by_cases hk : pk = .block
  · rw [if_pos hk, if_pos hk,
      amendedBlockHeightAux_congr rest.length rest.length rest (Nat.le_refl _) (Nat.le_refl _)]
  · rw [if_neg hk, if_neg hk,
      amendedBlockHeightAux_congr rest.length _ _ hdw (Nat.le_refl _)]

theorem blockHeightLoop_spec (l : List LayoutObject) :
    (blockHeightLoop .block l =
      amendedBlockHeight (l.map (fun c => (c.kind, c.size.height)))) ∧
    (∀ prev, prev ≠ .block →
      blockHeightLoop prev l =
        amendedBlockHeight
          ((l.map (fun c => (c.kind, c.size.height))).dropWhile
            (fun p => p.1 ≠ .block))) := by
  induction l with
  | nil => exact ⟨rfl, fun _ _ => rfl⟩
  | cons c rest ih =>
    constructor
    · rw [blockHeightLoop, List.map_cons, amendedBlockHeight_cons]
      by_cases hk : c.kind = .block
      · rw [if_pos hk, if_pos (Or.inl rfl), hk, ih.1]
      · rw [if_neg hk, if_pos (Or.inl rfl), ih.2 c.kind hk]
    · intro prev hprev
      rw [blockHeightLoop, List.map_cons, List.dropWhile_cons]
      by_cases hk : c.kind = .block
      · rw [if_pos (Or.inr hk), if_neg (by simp [hk]), amendedBlockHeight_cons,
          if_pos hk, hk, ih.1]
      · rw [if_neg (fun hor => hor.elim hprev hk), if_pos (by simp [hk]),
          ih.2 c.kind hk, Nat.zero_add]

/-- Claim C2 as amended: in the size pass the computed width of a Block
layout object equals its parent's width, and the computed height is the
sum over the children in which every maximal run of consecutive non-Block
children contributes a single row whose height is the height of the FIRST
child of the run (not the maximum): a child's height is counted exactly
when the child or its predecessor is a Block. -/
theorem c2_block_size (k : LayoutConsts) (o : LayoutObject) (ps : LayoutSize)
    (hk : o.kind = .block) :
    computeSize k o ps =
      ⟨ps.width, amendedBlockHeight (o.children.map (fun c => (c.kind, c.size.height)))⟩ := by
  simp only [computeSize, hk]
  rw [(blockHeightLoop_spec o.children).1]

end SabaLayout

/-- Counterexample to claim C2: a Block whose two consecutive Inline
children have heights 1 and 2 gets computed height 1 (the first of the
run), not the run maximum 2 that the claim specifies. -/
theorem c2_counterexample :
    (SabaLayout.computeSize Fixtures.layoutConstsEx Fixtures.blockObjEx ⟨7, 0⟩).height
      ≠ SabaLayout.claimBlockHeight
          (Fixtures.blockObjEx.children.map (fun c => (c.kind, c.size.height))) := by
  decide

/-- Witness for the amended C2 at the concrete Block fixture. -/
theorem c2_witness :
    SabaLayout.computeSize Fixtures.layoutConstsEx Fixtures.blockObjEx ⟨7, 0⟩ =
      ⟨7, SabaLayout.amendedBlockHeight
            (Fixtures.blockObjEx.children.map (fun c => (c.kind, c.size.height)))⟩ :=
  SabaLayout.c2_block_size Fixtures.layoutConstsEx Fixtures.blockObjEx ⟨7, 0⟩ rfl

/-! ## Claim C3 -/

theorem ceil_div_eq (w c : Nat) (hc : 0 < c) :
    (if w % c = 0 then w / c else w / c + 1) = (w + c - 1) / c := by
  have hd := Nat.div_add_mod w c
  by_cases h : w % c = 0
  · rw [if_pos h]
    have hrw : w + c - 1 = c * (w / c) + (c - 1) := by omega
    have h2 := Nat.mul_add_div hc (w / c) (c - 1)
    have h3 : (c - 1) / c = 0 := Nat.div_eq_of_lt (by omega)
    rw [hrw, h2, h3, Nat.add_zero]
  · rw [if_neg h]
    have hlt : w % c < c := Nat.mod_lt w hc
    have hmul : c * (w / c + 1) = c * (w / c) + c := by ring
    have hrw : w + c - 1 = c * (w / c + 1) + (w % c - 1) := by omega
    have h2 := Nat.mul_add_div hc (w / c + 1) (w % c - 1)
    have h3 : (w % c - 1) / c = 0 := Nat.div_eq_of_lt (by omega)
    rw [hrw, h2, h3, Nat.add_zero]

/-- Claim C3 (confirmed): in the size pass, a Text layout object with text
`t` and font-size ratio `r = fontSizeScale font_size ∈ {1,2,3}` is sized
`CHAR_WIDTH*r*len(t) × CHAR_HEIGHT_WITH_PADDING*r` when the width fits in
the content area, and otherwise `CONTENT_AREA_WIDTH ×
CHAR_HEIGHT_WITH_PADDING*r*ceil(CHAR_WIDTH*r*len(t) / CONTENT_AREA_WIDTH)`
(the ceiling written as `(w + caw - 1) / caw`). -/
theorem c3_text_size (k : SabaLayout.LayoutConsts) (o : SabaLayout.LayoutObject)
    (t : Str) (ps : SabaLayout.LayoutSize)
    (hk : o.kind = .text) (hn : o.node_kind = .text t)
    (hcaw : 0 < k.content_area_width) :
    SabaLayout.computeSize k o ps =
      (if k.char_width * SabaLayout.fontSizeScale o.style.font_size * t.length
            ≤ k.content_area_width then
        ⟨k.char_width * SabaLayout.fontSizeScale o.style.font_size * t.length,
         k.char_height_with_padding * SabaLayout.fontSizeScale o.style.font_size⟩
      else
        ⟨k.content_area_width,
         k.char_height_with_padding * SabaLayout.fontSizeScale o.style.font_size *
           ((k.char_width * SabaLayout.fontSizeScale o.style.font_size * t.length
              + k.content_area_width - 1) / k.content_area_width)⟩) := by
  simp only [SabaLayout.computeSize, hk, hn]
  by_cases hgt : k.char_width * SabaLayout.fontSizeScale o.style.font_size * t.length
      > k.content_area_width
  · have hnle : ¬ (k.char_width * SabaLayout.fontSizeScale o.style.font_size * t.length
        ≤ k.content_area_width) := by omega
    rw [if_pos hgt, if_neg hnle, ceil_div_eq _ _ hcaw]
  · have hle : k.char_width * SabaLayout.fontSizeScale o.style.font_size * t.length
        ≤ k.content_area_width := by omega
    rw [if_neg hgt, if_pos hle]

/-- Witness for C3: the fixture text (7 chars, ratio 2, char width 1,
content area 5) wraps to 3 lines of height 20 each. -/
theorem c3_witness :
    SabaLayout.computeSize Fixtures.layoutConstsEx Fixtures.textObjEx ⟨7, 0⟩ = ⟨5, 60⟩ := by
  rw [c3_text_size Fixtures.layoutConstsEx Fixtures.textObjEx
    ['a', 'a', 'a', ' ', 'b', 'b', 'b'] ⟨7, 0⟩ rfl rfl (by decide)]
  decide

/-! ## Claim C4 -/

namespace SabaLayout

theorem paintLines_length (style : ComputedStyle) (x y chwp : Nat) (ls : List Str) :
    ∀ i0, (paintLines style x y chwp i0 ls).length = ls.length := by
  induction ls with
  | nil => intro i0; rfl
  | cons l rest ih =>
    intro i0
    rw [paintLines, List.length_cons, List.length_cons, ih (i0 + 1)]

theorem paintLines_get? (style : ComputedStyle) (x y chwp : Nat) (ls : List Str) :
    ∀ i0 j, (paintLines style x y chwp i0 ls).get? j =
      (ls.get? j).map (fun l => .text l style ⟨x, y + chwp * (i0 + j)⟩) := by
  induction ls with
  | nil => intro i0 j; rfl
  | cons l rest ih =>
    intro i0 j
    cases j with
    | zero => rfl
    | succ j' =>
      rw [paintLines]
      show (paintLines style x y chwp (i0 + 1) rest).get? j' = _
      rw [ih (i0 + 1) j']
      show _ = (rest.get? j').map (fun l => .text l style ⟨x, y + chwp * (i0 + (j' + 1))⟩)
      simp only [show i0 + 1 + j' = i0 + (j' + 1) from by omega]

/-- Claim C4 as amended: painting a Text layout object emits one Text
display item per wrapped line, and the item for line index `i` has y
coordinate `point.y + CHAR_HEIGHT_WITH_PADDING * i` — the font-size ratio
is NOT applied to the per-line y offset (it is applied to the wrap width
only). -/
theorem c4_paint_text (k : LayoutConsts) (o : LayoutObject) (t : Str)
    (hk : o.kind = .text) (hn : o.node_kind = .text t)
    (hd : o.style.display ≠ .displayNone) :
    (paint k o).length =
      (splitText k (normalizeText t)
        (k.char_width * fontSizeScale o.style.font_size)).length ∧
    ∀ j, (paint k o).get? j =
      ((splitText k (normalizeText t)
          (k.char_width * fontSizeScale o.style.font_size)).get? j).map
        (fun l => .text l o.style
          ⟨o.point.x, o.point.y + k.char_height_with_padding * j⟩) := by
  constructor
  · simp only [paint, hk, hn, if_neg hd]
    rw [paintLines_length]
  · intro j
    simp only [paint, hk, hn, if_neg hd]
    rw [paintLines_get?]
    simp only [Nat.zero_add]

end SabaLayout

/-- Counterexample to claim C4: with `CHAR_HEIGHT_WITH_PADDING = 10` and
ratio 2 (XLarge), the second emitted line sits at `y = 10`, not at the
claimed `y + 1 * CHAR_HEIGHT_WITH_PADDING * ratio = 20`. -/
theorem c4_counterexample :
    (SabaLayout.paint Fixtures.layoutConstsEx Fixtures.textObjEx).getD 1
        (.rect Fixtures.styleEx ⟨0, 0⟩ ⟨0, 0⟩)
      = .text ['a'] Fixtures.styleEx ⟨0, 10⟩ ∧
    (10 : Nat) ≠ Fixtures.textObjEx.point.y +
      1 * (Fixtures.layoutConstsEx.char_height_with_padding *
        SabaLayout.fontSizeScale Fixtures.textObjEx.style.font_size) := by
  constructor
  · decide
  · decide

/-- Witness for the amended C4 at the concrete fixture: one display item
per wrapped line, and the item at index 1 sits at y = 0 + 10 * 1. -/
theorem c4_witness :
    (SabaLayout.paint Fixtures.layoutConstsEx Fixtures.textObjEx).get? 1 =
      ((SabaLayout.splitText Fixtures.layoutConstsEx
          (SabaLayout.normalizeText ['a', 'a', 'a', ' ', 'b', 'b', 'b'])
          (Fixtures.layoutConstsEx.char_width *
            SabaLayout.fontSizeScale Fixtures.textObjEx.style.font_size)).get? 1).map
        (fun l => .text l Fixtures.textObjEx.style
          ⟨Fixtures.textObjEx.point.x,
           Fixtures.textObjEx.point.y +
             Fixtures.layoutConstsEx.char_height_with_padding * 1⟩) :=
  (SabaLayout.c4_paint_text Fixtures.layoutConstsEx Fixtures.textObjEx
    ['a', 'a', 'a', ' ', 'b', 'b', 'b'] rfl rfl (by decide)).2 1

/-! ## Claim C5 -/

namespace SabaUrl

theorem httpScheme_not_leading (h p r : Str) (hc : ':' ∉ h) (hp : p ≠ [])
    (hd : ∀ c ∈ p, c.isDigit = true) :
    httpScheme.isPrefixOf (h ++ ':' :: (p ++ '/' :: r)) = false := by
  by_contra hcon
  rw [Bool.not_eq_false] at hcon
  have hpre := List.isPrefixOf_iff_prefix.mp hcon
  have htake := List.prefix_iff_eq_take.mp hpre
  have hget : ∀ i, i < 7 → (h ++ ':' :: (p ++ '/' :: r))[i]? = httpScheme[i]? := by
    intro i hi
    rw [htake, List.getElem?_take]
    have h7 : httpScheme.length = 7 := rfl
    rw [h7, if_pos hi]
  rcases Nat.lt_or_ge h.length 7 with hlt | hge
  · have h1 : (h ++ ':' :: (p ++ '/' :: r))[h.length]? = some ':' := by
      rw [List.getElem?_append, if_neg (Nat.lt_irrefl _), Nat.sub_self]
      simp
    rcases Nat.lt_or_ge h.length 4 with hlt4 | hge4
    · rw [hget h.length hlt] at h1
      interval_cases hl : h.length <;> exact absurd h1 (by decide)
    · rcases Nat.lt_or_ge 4 h.length with hgt4 | hle4
      · have h4 : (h ++ ':' :: (p ++ '/' :: r))[4]? = h[4]? := by
          rw [List.getElem?_append, if_pos hgt4]
        rw [hget 4 (by omega)] at h4
        have : h[4]? = some ':' := by
          rw [← h4]
          decide
        exact hc (List.getElem?_mem this)
      · have heq : h.length = 4 := by omega
        have h5 : (h ++ ':' :: (p ++ '/' :: r))[5]? = (p ++ '/' :: r)[0]? := by
          rw [List.getElem?_append, if_neg (by omega), heq]
          simp
        rw [hget 5 (by omega)] at h5
        cases p with
        | nil => exact hp rfl
        | cons c cs =>
          have hc5 : httpScheme[5]? = some '/' := by decide
          rw [hc5] at h5
          simp only [List.cons_append, List.getElem?_cons_zero] at h5
          have hceq : c = '/' := (Option.some.inj h5).symm
          have hdig := hd c (List.mem_cons_self c cs)
          rw [hceq] at hdig
          exact absurd hdig (by decide)
  · have h4 : (h ++ ':' :: (p ++ '/' :: r))[4]? = h[4]? := by
      rw [List.getElem?_append, if_pos (by omega)]
    rw [hget 4 (by omega)] at h4
    have : h[4]? = some ':' := by
      rw [← h4]
      decide
    exact hc (List.getElem?_mem this)

/-- Claim C5 (confirmed): for a URL of the shape `http://h:p/path?q` with
`h` a non-empty host free of `':'`, `'/'`, `'?'`, `p` a (per the spec
grammar `port := [0-9]+`, non-empty) digit string and `path` free of
`'?'`, `Url::parse` succeeds and re-concatenating
`"http://" ++ host ++ ":" ++ port ++ "/" ++ path ++ "?" ++ searchpart`
reproduces the original input exactly. -/
theorem c5_url_roundtrip (h p pa q : Str)
    (hh : h ≠ []) (hc : ':' ∉ h) (hsl : '/' ∉ h) (hq : '?' ∉ h)
    (hp : p ≠ []) (hpd : ∀ c ∈ p, c.isDigit = true) (hpa : '?' ∉ pa) :
    ∃ u', Url.parse (Url.new (httpScheme ++ (h ++ ':' :: (p ++ '/' :: (pa ++ '?' :: q))))) = .ok u' ∧
      httpScheme ++ (u'.host ++ ':' :: (u'.port ++ '/' :: (u'.path ++ '?' :: u'.searchpart)))
        = httpScheme ++ (h ++ ':' :: (p ++ '/' :: (pa ++ '?' :: q))) := by
  have hslp : '/' ∉ h ++ ':' :: p := by
    intro hm
    rcases List.mem_append.mp hm with hm | hm
    · exact hsl hm
    · rcases List.mem_cons.mp hm with hm | hm
      · exact absurd hm (by decide)
      · have := hpd '/' hm
        exact absurd this (by decide)
  have htrim : RustStr.trimStartMatches httpScheme
      (httpScheme ++ (h ++ ':' :: (p ++ '/' :: (pa ++ '?' :: q))))
        = h ++ ':' :: (p ++ '/' :: (pa ++ '?' :: q)) := by
    rw [RustStr.trimStartMatches_step _ _ (by decide),
      RustStr.trimStartMatches_of_not_prefix _ _
        (httpScheme_not_leading h p (pa ++ '?' :: q) hc hp hpd)]
  have hassoc : h ++ ':' :: (p ++ '/' :: (pa ++ '?' :: q))
      = (h ++ ':' :: p) ++ '/' :: (pa ++ '?' :: q) := by
    simp
  have hparts : (Url.new (httpScheme ++ (h ++ ':' :: (p ++ '/' :: (pa ++ '?' :: q))))).urlParts
      = [h ++ ':' :: p, pa ++ '?' :: q] := by
    unfold Url.urlParts
    show RustStr.splitn2 '/' (RustStr.trimStartMatches httpScheme
      (httpScheme ++ (h ++ ':' :: (p ++ '/' :: (pa ++ '?' :: q))))) = _
    rw [htrim, hassoc]
    unfold RustStr.splitn2
    rw [RustStr.splitOnce_append '/' _ _ hslp]
  have hfind : RustStr.findChar ':' (h ++ ':' :: p) = some h.length :=
    RustStr.findChar_append ':' h p hc
  have hhost : (Url.new (httpScheme ++ (h ++ ':' :: (p ++ '/' :: (pa ++ '?' :: q))))).extract_host = h := by
    unfold Url.extract_host
    rw [hparts]
    show (match RustStr.findChar ':' (h ++ ':' :: p) with
      | some i => (h ++ ':' :: p).take i
      | none => h ++ ':' :: p) = h
    rw [hfind]
    exact List.take_left h (':' :: p)
  have hport : (Url.new (httpScheme ++ (h ++ ':' :: (p ++ '/' :: (pa ++ '?' :: q))))).extract_port = p := by
    unfold Url.extract_port
    rw [hparts]
    show (match RustStr.findChar ':' (h ++ ':' :: p) with
      | some i => (h ++ ':' :: p).drop (i + 1)
      | none => ['8', '0']) = p
    rw [hfind]
    show (h ++ ':' :: p).drop (h.length + 1) = p
    rw [show h ++ ':' :: p = (h ++ [':']) ++ p by simp,
      show h.length + 1 = (h ++ [':']).length by simp]
    exact List.drop_left _ p
  have hsplitq : RustStr.splitn2 '?' (pa ++ '?' :: q) = [pa, q] := by
    unfold RustStr.splitn2
    rw [RustStr.splitOnce_append '?' _ _ hpa]
  have hpath : (Url.new (httpScheme ++ (h ++ ':' :: (p ++ '/' :: (pa ++ '?' :: q))))).extract_path = pa := by
    unfold Url.extract_path
    rw [hparts]
    show (if ([h ++ ':' :: p, pa ++ '?' :: q] : List Str).length < 2 then []
      else (RustStr.splitn2 '?' (pa ++ '?' :: q)).getD 0 []) = pa
    rw [if_neg (by simp), hsplitq]
    rfl
  have hsearch : (Url.new (httpScheme ++ (h ++ ':' :: (p ++ '/' :: (pa ++ '?' :: q))))).extract_searchpart = q := by
    unfold Url.extract_searchpart
    rw [hparts]
    show (if ([h ++ ':' :: p, pa ++ '?' :: q] : List Str).length < 2 then []
      else if (RustStr.splitn2 '?' (pa ++ '?' :: q)).length < 2 then []
        else (RustStr.splitn2 '?' (pa ++ '?' :: q)).getD 1 []) = q
    rw [if_neg (by simp), hsplitq, if_neg (by simp)]
    rfl
  have hhttp : (Url.new (httpScheme ++ (h ++ ':' :: (p ++ '/' :: (pa ++ '?' :: q))))).is_http = true := by
    unfold Url.is_http
    exact (RustStr.containsSub_iff_infix _ _).mpr
      (List.prefix_append httpScheme _).isInfix
  refine ⟨{ url := httpScheme ++ (h ++ ':' :: (p ++ '/' :: (pa ++ '?' :: q))),
            host := h, port := p, path := pa, searchpart := q }, ?_, rfl⟩
  unfold Url.parse
  rw [if_pos hhttp, hhost, hport, hpath, hsearch]
  rfl

end SabaUrl

/-- Witness for C5 at the concrete URL `http://e:8/i?a`. -/
theorem c5_witness :
    ∃ u', SabaUrl.Url.parse (SabaUrl.Url.new
        (SabaUrl.httpScheme ++ (['e'] ++ ':' :: (['8'] ++ '/' :: (['i'] ++ '?' :: ['a']))))) = .ok u' ∧
      SabaUrl.httpScheme ++
          (u'.host ++ ':' :: (u'.port ++ '/' :: (u'.path ++ '?' :: u'.searchpart)))
        = SabaUrl.httpScheme ++ (['e'] ++ ':' :: (['8'] ++ '/' :: (['i'] ++ '?' :: ['a']))) :=
  SabaUrl.c5_url_roundtrip ['e'] ['8'] ['i'] ['a']
    (by decide) (by decide) (by decide) (by decide) (by decide)
    (by decide) (by decide)

/-! ## Claim C8 -/

namespace SabaCss

theorem consumeString_run (pre : Str) :
    ∀ (input pre0 rest : Str) (q c : Char),
      input = pre0 ++ q :: (pre ++ c :: rest) →
      (c = dquote ∨ c = squote) →
      (∀ x ∈ pre, ¬(x = dquote ∨ x = squote)) →
      consumeStringToken input pre0.length = some (pre, pre0.length + pre.length + 1) := by
  induction pre with
  | nil =>
    intro input pre0 rest q c hinput hc hpre
    subst hinput
    have hlen : (pre0 ++ q :: ([] ++ c :: rest)).length
        = pre0.length + rest.length + 2 := by
      simp
      omega
    unfold consumeStringToken
    rw [hlen, show pre0.length + rest.length + 2 - pre0.length = (rest.length + 1) + 1 from by omega,
      consumeStringAux]
    rw [if_neg (by rw [hlen]; omega)]
    have hgetc : (pre0 ++ q :: ([] ++ c :: rest)).get? (pre0.length + 1) = some c := by
      rw [List.get?_eq_getElem?, List.getElem?_append, if_neg (by omega),
        show pre0.length + 1 - pre0.length = 1 from by omega]
      simp
    simp only [hgetc]
    rw [if_pos hc]
    simp
  | cons x pre' ih =>
    intro input pre0 rest q c hinput hc hpre
    subst hinput
    have hlen : (pre0 ++ q :: (x :: pre' ++ c :: rest)).length
        = pre0.length + pre'.length + rest.length + 3 := by
      simp
      omega
    unfold consumeStringToken
    rw [hlen, show pre0.length + pre'.length + rest.length + 3 - pre0.length
        = (pre'.length + rest.length + 2) + 1 from by omega, consumeStringAux]
    rw [if_neg (by rw [hlen]; omega)]
    have hgetx : (pre0 ++ q :: (x :: pre' ++ c :: rest)).get? (pre0.length + 1) = some x := by
      rw [List.get?_eq_getElem?, List.getElem?_append, if_neg (by omega),
        show pre0.length + 1 - pre0.length = 1 from by omega]
      simp
    simp only [hgetx]
    rw [if_neg (hpre x (List.mem_cons_self x pre'))]
    have hre : pre0 ++ q :: (x :: pre' ++ c :: rest)
        = (pre0 ++ [q]) ++ x :: (pre' ++ c :: rest) := by
      simp
    have hih := ih (pre0 ++ q :: (x :: pre' ++ c :: rest)) (pre0 ++ [q]) rest x c
      (by simp) hc (fun y hy => hpre y (List.mem_cons_of_mem x hy))
    have hlen2 : (pre0 ++ [q]).length = pre0.length + 1 := by simp
    rw [hlen2] at hih
    unfold consumeStringToken at hih
    rw [hlen, show pre0.length + pre'.length + rest.length + 3 - (pre0.length + 1)
        = pre'.length + rest.length + 2 from by omega] at hih
    rw [hih]
    show some (x :: pre', pre0.length + 1 + pre'.length + 1)
      = some (x :: pre', pre0.length + (pre'.length + 1) + 1)
    rw [show pre0.length + 1 + pre'.length + 1
        = pre0.length + (pre'.length + 1) + 1 from by omega]

/-- Claim C8 as amended: a string opened by either quote character is
consumed into a `StringToken` up to the FIRST subsequent occurrence of
EITHER `'"'` or `'\x27'`: the terminating quote need not match the
opening one. -/
theorem c8_string_until_either_quote (input pre0 pre rest : Str) (q c : Char)
    (hinput : input = pre0 ++ q :: (pre ++ c :: rest))
    (hq : q = dquote ∨ q = squote)
    (hc : c = dquote ∨ c = squote)
    (hpre : ∀ x ∈ pre, ¬(x = dquote ∨ x = squote)) :
    cssNext input pre0.length =
      some (some (.stringToken pre, pre0.length + pre.length + 2)) := by
  have hrun := consumeString_run pre input pre0 rest q c hinput hc hpre
  subst hinput
  have hlen : (pre0 ++ q :: (pre ++ c :: rest)).length
      = pre0.length + pre.length + rest.length + 2 := by
    simp
    omega
  have hgetq : (pre0 ++ q :: (pre ++ c :: rest)).getD pre0.length (Char.ofNat 0) = q := by
    rw [List.getD_eq_getElem?_getD, List.getElem?_append,
      if_neg (Nat.lt_irrefl _), Nat.sub_self]
    simp
  unfold cssNext
  rw [hlen, show pre0.length + pre.length + rest.length + 2 - pre0.length
      = (pre.length + rest.length + 1) + 1 from by omega, cssNextAux]
  rw [if_neg (by rw [hlen]; omega)]
  rcases hq with rfl | rfl
  · rw [hgetq]
    rw [if_neg (by decide), if_neg (by decide), if_neg (by decide),
      if_neg (by decide), if_neg (by decide), if_neg (by decide),
      if_neg (by decide), if_neg (by decide), if_neg (by decide),
      if_pos (Or.inl rfl), hrun]
    simp only [Option.map_some']
  · rw [hgetq]
    rw [if_neg (by decide), if_neg (by decide), if_neg (by decide),
      if_neg (by decide), if_neg (by decide), if_neg (by decide),
      if_neg (by decide), if_neg (by decide), if_neg (by decide),
      if_pos (Or.inr rfl), hrun]
    simp only [Option.map_some']

end SabaCss

/-- Counterexample to claim C8: tokenizing `"a'` — a string opened with a
double quote — terminates the `StringToken` at the SINGLE quote: the
tokenizer does not wait for a matching `'"'` (the input contains no second
double quote at all). -/
theorem c8_counterexample :
    SabaCss.cssNext Fixtures.cssInputEx 0 = some (some (.stringToken ['a'], 3)) ∧
    Fixtures.cssInputEx = [dquote, 'a', squote] ∧ squote ≠ dquote := by
  refine ⟨by decide, rfl, by decide⟩

/-- Witness for the amended C8 at the concrete input `"a'`. -/
theorem c8_witness :
    SabaCss.cssNext Fixtures.cssInputEx 0 =
      some (some (.stringToken ['a'], List.length ([] : Str) + List.length ['a'] + 2)) :=
  SabaCss.c8_string_until_either_quote Fixtures.cssInputEx [] ['a'] [] dquote squote
    rfl (Or.inl rfl) (Or.inr rfl) (by decide)

/-! ## Claim C1 -/

namespace SabaHtmlParse

theorem dom_get_append (d : Dom) (xs : List DomNode) (i : Nat)
    (h : i < d.nodes.length) : (Dom.mk (d.nodes ++ xs)).get i = d.get i := by
  unfold Dom.get
  rw [List.getD_eq_getElem?_getD, List.getD_eq_getElem?_getD,
    List.getElem?_append, if_pos h]

theorem dom_get_concat_self (d : Dom) (x : DomNode) :
    (Dom.mk (d.nodes ++ [x])).get d.nodes.length = x := by
  unfold Dom.get
  rw [List.getD_eq_getElem?_getD, List.getElem?_concat_length]
  rfl

theorem dom_modify_length (d : Dom) (i : Nat) (f : DomNode → DomNode) :
    (d.modify i f).nodes.length = d.nodes.length := by
  simp [Dom.modify]

theorem dom_get_modify_same (d : Dom) (i : Nat) (f : DomNode → DomNode)
    (h : i < d.nodes.length) : (d.modify i f).get i = f (d.get i) := by
  unfold Dom.modify Dom.get
  rw [List.getD_eq_getElem?_getD, List.getElem?_set_eq (by simpa using h)]
  rfl

theorem dom_get_modify_ne (d : Dom) (i j : Nat) (f : DomNode → DomNode)
    (h : i ≠ j) : (d.modify i f).get j = d.get j := by
  unfold Dom.modify Dom.get
  rw [List.getD_eq_getElem?_getD, List.getD_eq_getElem?_getD,
    List.getElem?_set_ne h]
  rw [← List.getD_eq_getElem?_getD, List.getD_eq_getElem?_getD]

theorem sibChain_append (d : Dom) (xs : List DomNode) :
    ∀ l i, sibChain d i l → (∀ j ∈ l, j < d.nodes.length) →
      sibChain (Dom.mk (d.nodes ++ xs)) i l := by
  intro l
  induction l with
  | nil => intro i hch _; exact absurd hch (by simp [sibChain])
  | cons j tl ih =>
    intro i hch hmem
    cases tl with
    | nil =>
      simp only [sibChain] at hch ⊢
      exact ⟨hch.1, by
        rw [dom_get_append d xs j (hmem j (List.mem_cons_self j []))]
        exact hch.2⟩
    | cons j2 tl2 =>
      simp only [sibChain] at hch ⊢
      refine ⟨hch.1, ?_, ?_⟩
      · rw [dom_get_append d xs j (hmem j (List.mem_cons_self j _))]
        exact hch.2.1
      · exact ih j2 hch.2.2 (fun j' hj' => hmem j' (List.mem_cons_of_mem j hj'))

theorem lastSiblingFrom_chain (d : Dom) :
    ∀ l i fuel, sibChain d i l → l.length ≤ fuel →
      lastSiblingFrom d fuel i = l.getLast?.getD 0 := by
  intro l
  induction l with
  | nil => intro i fuel hch _; exact absurd hch (by simp [sibChain])
  | cons j tl ih =>
    intro i fuel hch hlen
    cases tl with
    | nil =>
      simp only [sibChain] at hch
      obtain ⟨hij, hnext⟩ := hch
      subst hij
      cases fuel with
      | zero => simp at hlen
      | succ f =>
        rw [lastSiblingFrom]
        simp only [hnext]
        rfl
    | cons j2 tl2 =>
      simp only [sibChain] at hch
      obtain ⟨hij, hnext, hch2⟩ := hch
      subst hij
      cases fuel with
      | zero => simp at hlen
      | succ f =>
        rw [lastSiblingFrom]
        simp only [hnext]
        rw [ih j2 f hch2 (by simp only [List.length_cons] at hlen ⊢; omega),
          List.getLast?_cons_cons]

/-- Claim C1 as amended: `insert_element` appends the new node as the next
sibling of the LAST node of the current node's child chain (found by
walking `next_sibling` links from the first child), not of the first child
itself; the new node's weak previous-sibling link is set to the first
child, its parent to the current node, the current node's last-child to
the new node; when the current node has no child the new node becomes its
first child; and in all cases the new node is pushed onto the stack of
open elements. -/
theorem c1_insert_after_last_sibling
    (p : ParserSt) (tag : Str) (attrs : List SabaHtmlTok.Attribute)
    (current : Nat)
    (hcur : current = p.stack_of_open_elements.getLast?.getD 0)
    (hlt : current < p.dom.nodes.length) :
    ((insertElement p tag attrs).stack_of_open_elements
        = p.stack_of_open_elements ++ [p.dom.nodes.length]) ∧
    (((insertElement p tag attrs).dom.get p.dom.nodes.length).parent = some current) ∧
    (((insertElement p tag attrs).dom.get current).last_child
        = some p.dom.nodes.length) ∧
    ((p.dom.get current).first_child = none →
      ((insertElement p tag attrs).dom.get current).first_child
        = some p.dom.nodes.length) ∧
    (∀ fc l, (p.dom.get current).first_child = some fc →
      sibChain p.dom fc l → (∀ j ∈ l, j < p.dom.nodes.length) →
      l.length ≤ p.dom.nodes.length →
      (((insertElement p tag attrs).dom.get (l.getLast?.getD 0)).next_sibling
          = some p.dom.nodes.length) ∧
      (((insertElement p tag attrs).dom.get p.dom.nodes.length).previous_sibling
          = some fc)) := by
  have hgetcur : ((Dom.mk (p.dom.nodes ++ [DomNode.new (.element tag attrs)])).get
      current).first_child = (p.dom.get current).first_child := by
    rw [dom_get_append p.dom _ current hlt]
  have hd1len : (Dom.mk (p.dom.nodes ++ [DomNode.new (.element tag attrs)])).nodes.length
      = p.dom.nodes.length + 1 := by
    simp
  have hne : current ≠ p.dom.nodes.length := Nat.ne_of_lt hlt
  by_cases hfc : (p.dom.get current).first_child = none
  · -- no first child
    refine ⟨?_, ?_, ?_, ?_, ?_⟩
    · simp only [insertElement, ← hcur]
    · simp only [insertElement, ← hcur, hgetcur, hfc]
      rw [dom_get_modify_same _ _ _
        (by rw [dom_modify_length, dom_modify_length, hd1len]; omega)]
    · simp only [insertElement, ← hcur, hgetcur, hfc]
      rw [dom_get_modify_ne _ _ _ _ (Ne.symm hne),
        dom_get_modify_same _ _ _ (by rw [dom_modify_length, hd1len]; omega)]
    · intro _
      simp only [insertElement, ← hcur, hgetcur, hfc]
      rw [dom_get_modify_ne _ _ _ _ (Ne.symm hne),
        dom_get_modify_same _ _ _ (by rw [dom_modify_length, hd1len]; omega),
        dom_get_modify_same _ _ _ (by rw [hd1len]; omega)]
    · intro fc l hsome _ _ _
      rw [hfc] at hsome
      cases hsome
  · -- a first child exists
    obtain ⟨fc0, hfc0⟩ := Option.ne_none_iff_exists'.mp hfc
    refine ⟨?_, ?_, ?_, ?_, ?_⟩
    · simp only [insertElement, ← hcur]
    · simp only [insertElement, ← hcur, hgetcur, hfc0]
      rw [dom_get_modify_same _ _ _
        (by rw [dom_modify_length, dom_modify_length, dom_modify_length, hd1len]; omega)]
    · simp only [insertElement, ← hcur, hgetcur, hfc0]
      rw [dom_get_modify_ne _ _ _ _ (Ne.symm hne),
        dom_get_modify_same _ _ _
          (by rw [dom_modify_length, dom_modify_length, hd1len]; omega)]
    · intro hnone
      rw [hfc0] at hnone
      cases hnone
    · intro fc l hsome hchain hmem hlenle
      rw [hfc0] at hsome
      have hfceq : fc0 = fc := Option.some.inj hsome
      subst hfceq
      have hlast_mem : l.getLast?.getD 0 ∈ l := by
        cases l with
        | nil => exact absurd hchain (by simp [sibChain])
        | cons j tl =>
          cases hgl : (j :: tl).getLast? with
          | none => simp [List.getLast?] at hgl
          | some a =>
            simp only [Option.getD_some]
            exact List.mem_of_mem_getLast? hgl
      have hlast_lt : l.getLast?.getD 0 < p.dom.nodes.length := hmem _ hlast_mem
      have hlast_ne : l.getLast?.getD 0 ≠ p.dom.nodes.length := Nat.ne_of_lt hlast_lt
      have hchain1 : sibChain (Dom.mk (p.dom.nodes ++ [DomNode.new (.element tag attrs)]))
          fc0 l := sibChain_append p.dom _ l fc0 hchain hmem
      have hwalk : lastSiblingFrom
          (Dom.mk (p.dom.nodes ++ [DomNode.new (.element tag attrs)]))
          (Dom.mk (p.dom.nodes ++ [DomNode.new (.element tag attrs)])).nodes.length fc0
            = l.getLast?.getD 0 := by
        apply lastSiblingFrom_chain _ l fc0 _ hchain1
        rw [hd1len]
        omega
      constructor
      · simp only [insertElement, ← hcur, hgetcur, hfc0, hwalk]
        rw [dom_get_modify_ne _ _ _ _ (Ne.symm hlast_ne)]
        have hstep : ∀ d2 : Dom, ((d2.modify current
            (fun n => { n with last_child := some p.dom.nodes.length })).get
              (l.getLast?.getD 0)).next_sibling
            = (d2.get (l.getLast?.getD 0)).next_sibling := by
          intro d2
          by_cases hcl : current = l.getLast?.getD 0
          · by_cases hcl2 : current < d2.nodes.length
            · rw [← hcl, dom_get_modify_same _ _ _ hcl2]
            · unfold Dom.modify Dom.get
              rw [List.set_eq_of_length_le (by omega)]
          · rw [dom_get_modify_ne _ _ _ _ hcl]
        rw [hstep]
        rw [dom_get_modify_ne _ _ _ _ (Ne.symm hlast_ne)]
        rw [dom_get_modify_same _ _ _ (by rw [hd1len]; omega)]
      · simp only [insertElement, ← hcur, hgetcur, hfc0, hwalk]
        rw [dom_get_modify_same _ _ _
          (by rw [dom_modify_length, dom_modify_length, dom_modify_length, hd1len]; omega)]
        rw [dom_get_modify_ne _ _ _ _ hne,
          dom_get_modify_same _ _ _
            (by rw [dom_modify_length, hd1len]; omega)]

end SabaHtmlParse

/-- Counterexample to claim C1: inserting `<p>` under the document root of
`domEx` (two children: 1 then 2).  The claim says the new node (id 3)
becomes the next sibling of the FIRST child (id 1); in fact node 1's next
sibling is still node 2, and the new node is appended after the LAST
child, node 2. -/
theorem c1_counterexample :
    ((Fixtures.parserEx.dom.get 0).first_child = some 1) ∧
    (((SabaHtmlParse.insertElement Fixtures.parserEx ['p'] []).dom.get 1).next_sibling
        = some 2) ∧
    (((SabaHtmlParse.insertElement Fixtures.parserEx ['p'] []).dom.get 1).next_sibling
        ≠ some 3) ∧
    (((SabaHtmlParse.insertElement Fixtures.parserEx ['p'] []).dom.get 2).next_sibling
        = some 3) := by
  refine ⟨by decide, by decide, by decide, by decide⟩

/-- Witness for the amended C1 at the concrete fixture: the new node is
linked after the last child (id 2) and its weak previous-sibling link
points at the first child (id 1). -/
theorem c1_witness :
    ((SabaHtmlParse.insertElement Fixtures.parserEx ['p'] []).dom.get
        (([1, 2] : List Nat).getLast?.getD 0)).next_sibling
      = some Fixtures.parserEx.dom.nodes.length ∧
    ((SabaHtmlParse.insertElement Fixtures.parserEx ['p'] []).dom.get
        Fixtures.parserEx.dom.nodes.length).previous_sibling = some 1 :=
  (SabaHtmlParse.c1_insert_after_last_sibling Fixtures.parserEx ['p'] [] 0
      rfl (by decide)).2.2.2.2
    1 [1, 2] (by decide) ⟨rfl, by decide, rfl, by decide⟩ (by decide) (by decide)

/-! ## Claim C7 -/

namespace SabaHtmlTok

theorem toLower_notUpper (c : Char) : (Char.toLower c).isUpper = false := by
  unfold Char.toLower
  simp only []
  by_cases h : c.toNat ≥ 65 ∧ c.toNat ≤ 90
  · rw [if_pos h]
    have hvalid : (c.toNat + 32).isValidChar := by
      left
      simp only [Char.toNat] at h ⊢
      omega
    rw [Char.ofNat, dif_pos hvalid]
    simp only [Char.isUpper, Char.ofNatAux, UInt32.le_def, BitVec.le_def]
    simp only [Char.toNat, UInt32.toNat] at h
    simp only [UInt32.toBitVec, BitVec.toNat_ofNatLt]
    rw [Bool.and_eq_false_iff]
    right
    rw [decide_eq_false_iff_not]
    simp only [Char.toNat, UInt32.toNat]
    have h90 : (UInt32.toBitVec 90).toNat = 90 := by decide
    rw [h90]
    omega
  · rw [if_neg h]
    simp only [Char.isUpper, Char.toNat] at h ⊢
    rw [Bool.and_eq_false_iff]
    simp only [decide_eq_false_iff_not]
    simp only [UInt32.le_def, BitVec.le_def, UInt32.toNat] at h ⊢
    have h90 : (UInt32.toBitVec 90).toNat = 90 := by decide
    have h65 : (UInt32.toBitVec 65).toNat = 65 := by decide
    rw [h90, h65]
    omega

theorem noUpper_append_char (s : Str) (c : Char) (hs : noUpper s = true)
    (hc : c.isUpper = false) : noUpper (s ++ [c]) = true := by
  simp only [noUpper, List.all_append, Bool.and_eq_true] at hs ⊢
  exact ⟨hs, by simp [hc]⟩

theorem latestOk_createTag (t : HtmlTokenizer) (b : Bool) :
    latestOk (createTag t b) = true := by
  cases b <;> rfl

theorem latestOk_appendTagName {t t' : HtmlTokenizer} {c : Char}
    (ht : appendTagName t c = some t') (hok : latestOk t = true)
    (hc : c.isUpper = false) : latestOk t' = true := by
  unfold appendTagName at ht
  split at ht
  · next tag sc attrs heq =>
    injection ht with ht
    subst ht
    unfold latestOk at hok ⊢
    rw [heq] at hok
    simp only [tokNamesLower, Bool.and_eq_true] at hok ⊢
    exact ⟨noUpper_append_char _ _ hok.1 hc, hok.2⟩
  · next tag heq =>
    injection ht with ht
    subst ht
    unfold latestOk at hok ⊢
    rw [heq] at hok
    exact noUpper_append_char _ _ hok hc
  · cases ht

theorem latestOk_startNewAttribute {t t' : HtmlTokenizer}
    (ht : startNewAttribute t = some t') (hok : latestOk t = true) :
    latestOk t' = true := by
  unfold startNewAttribute at ht
  split at ht
  · next tag sc attrs heq =>
    injection ht with ht
    subst ht
    unfold latestOk at hok ⊢
    rw [heq] at hok
    simp only [tokNamesLower, List.all_append, Bool.and_eq_true] at hok ⊢
    exact ⟨hok.1, hok.2, by decide⟩
  · cases ht

theorem latestOk_appendAttribute {t t' : HtmlTokenizer} {c : Char} {b : Bool}
    (ht : appendAttribute t c b = some t') (hok : latestOk t = true)
    (hc : b = true → c.isUpper = false) : latestOk t' = true := by
  unfold appendAttribute at ht
  split at ht
  · next tag sc attrs heq =>
    split at ht
    · next a hlast =>
      injection ht with ht
      subst ht
      unfold latestOk at hok ⊢
      rw [heq] at hok
      simp only [tokNamesLower, Bool.and_eq_true, List.all_eq_true] at hok ⊢
      obtain ⟨htag, hall⟩ := hok
      refine ⟨htag, ?_⟩
      intro x hx
      rcases List.mem_append.mp hx with hx | hx
      · exact hall x ((List.dropLast_sublist attrs).mem hx)
      · rw [List.mem_singleton.mp hx]
        have ha := hall a (List.mem_of_mem_getLast? hlast)
        cases b with
        | false =>
          simpa [Attribute.add_char] using ha
        | true =>
          have hcu := hc rfl
          simp only [Attribute.add_char, if_pos rfl]
          exact noUpper_append_char _ _ ha hcu
    · cases ht
  · cases ht

theorem latestOk_setSelfClosing {t t' : HtmlTokenizer}
    (ht : setSelfClosingFlag t = some t') (hok : latestOk t = true) :
    latestOk t' = true := by
  unfold setSelfClosingFlag at ht
  split at ht
  · next tag sc attrs heq =>
    injection ht with ht
    subst ht
    unfold latestOk at hok ⊢
    rw [heq] at hok
    exact hok
  · cases ht

theorem takeLatest_spec {t : HtmlTokenizer} {tok : HtmlToken} {t' : HtmlTokenizer}
    (ht : takeLatestToken t = some (tok, t')) (hok : latestOk t = true) :
    tokNamesLower tok = true ∧ latestOk t' = true := by
  unfold takeLatestToken at ht
  split at ht
  · next tok0 heq =>
    injection ht with ht
    cases ht
    constructor
    · unfold latestOk at hok
      rw [heq] at hok
      exact hok
    · rfl
  · cases ht

theorem readInput_pres {t : HtmlTokenizer} {c : Char} {t1 : HtmlTokenizer}
    (h : readInput t = some (c, t1)) :
    t1.latest_token = t.latest_token ∧ t1.state = t.state := by
  unfold readInput at h
  by_cases hre : t.reconsume
  · rw [if_pos hre] at h
    by_cases hp : t.pos = 0
    · rw [if_pos hp] at h
      cases h
    · rw [if_neg hp] at h
      rcases Option.map_eq_some'.mp h with ⟨c', _, heq⟩
      injection heq with h1 h2
      subst h1
      subst h2
      exact ⟨rfl, rfl⟩
  · rw [if_neg hre] at h
    rcases Option.map_eq_some'.mp h with ⟨c', _, heq⟩
    injection heq with h1 h2
    subst h1
    subst h2
    exact ⟨rfl, rfl⟩

theorem iter_pres (t0 : HtmlTokenizer) (hok : latestOk t0 = true) (st : IterStep)
    (h : iter t0 = some st) :
    (match st with
     | .cont t2 => latestOk t2 = true
     | .emit t2 tok => latestOk t2 = true ∧ tokNamesLower tok = true) := by
  unfold iter at h
  cases hre : readInput t0 with
  | none =>
    simp only [hre] at h
    cases h
  | some p =>
    obtain ⟨c, t⟩ := p
    simp only [hre] at h
    have hlat := (readInput_pres hre).1
    have hok1 : latestOk t = true := by
      unfold latestOk at hok ⊢
      rw [hlat]
      exact hok
    cases hstate : t.state with
    | data =>
      simp only [hstate] at h
      split_ifs at h
      · injection h with h
        subst h
        exact hok1
      · injection h with h
        subst h
        exact ⟨hok1, rfl⟩
      · injection h with h
        subst h
        exact ⟨hok1, rfl⟩
    | tagOpen =>
      simp only [hstate] at h
      split_ifs at h
      · injection h with h
        subst h
        exact hok1
      · injection h with h
        subst h
        exact latestOk_createTag _ _
      · injection h with h
        subst h
        exact ⟨hok1, rfl⟩
      · injection h with h
        subst h
        exact hok1
    | endTagOpen =>
      simp only [hstate] at h
      split_ifs at h
      · injection h with h
        subst h
        exact ⟨hok1, rfl⟩
      · injection h with h
        subst h
        exact latestOk_createTag _ _
      · injection h with h
        subst h
        exact hok1
    | tagName =>
      simp only [hstate] at h
      split_ifs at h with h1 h2 h3 h4 h5
      · injection h with h
        subst h
        exact hok1
      · injection h with h
        subst h
        exact hok1
      · rcases Option.map_eq_some'.mp h with ⟨q, hq, hb⟩
        obtain ⟨tok2, t2⟩ := q
        subst hb
        have hs := takeLatest_spec hq hok1
        exact ⟨hs.2, hs.1⟩
      · rcases Option.map_eq_some'.mp h with ⟨a, ha, hb⟩
        subst hb
        exact latestOk_appendTagName ha hok1 (toLower_notUpper c)
      · injection h with h
        subst h
        exact ⟨hok1, rfl⟩
      · rcases Option.map_eq_some'.mp h with ⟨a, ha, hb⟩
        subst hb
        exact latestOk_appendTagName ha hok1 (Bool.eq_false_iff.mpr h4)
    | beforeAttributeName =>
      simp only [hstate] at h
      split_ifs at h
      · injection h with h
        subst h
        exact hok1
      · rcases Option.map_eq_some'.mp h with ⟨a, ha, hb⟩
        subst hb
        exact latestOk_startNewAttribute ha hok1
    | attributeName =>
      simp only [hstate] at h
      split_ifs at h with h1 h2 h3
      · injection h with h
        subst h
        exact hok1
      · injection h with h
        subst h
        exact hok1
      · rcases Option.map_eq_some'.mp h with ⟨a, ha, hb⟩
        subst hb
        exact latestOk_appendAttribute ha hok1 (fun _ => toLower_notUpper c)
      · rcases Option.map_eq_some'.mp h with ⟨a, ha, hb⟩
        subst hb
        exact latestOk_appendAttribute ha hok1 (fun _ => Bool.eq_false_iff.mpr h3)
    | afterAttributeName =>
      simp only [hstate] at h
      split_ifs at h
      · injection h with h
        subst h
        exact hok1
      · injection h with h
        subst h
        exact hok1
      · injection h with h
        subst h
        exact hok1
      · rcases Option.map_eq_some'.mp h with ⟨q, hq, hb⟩
        obtain ⟨tok2, t2⟩ := q
        subst hb
        have hs := takeLatest_spec hq hok1
        exact ⟨hs.2, hs.1⟩
      · injection h with h
        subst h
        exact ⟨hok1, rfl⟩
      · rcases Option.map_eq_some'.mp h with ⟨a, ha, hb⟩
        subst hb
        exact latestOk_startNewAttribute ha hok1
    | beforeAttributeValue =>
      simp only [hstate] at h
      split_ifs at h
      all_goals
        injection h with h
      all_goals
        subst h
      all_goals
        exact hok1
    | attributeValueDoubleQuoted =>
      simp only [hstate] at h
      split_ifs at h
      · injection h with h
        subst h
        exact hok1
      · injection h with h
        subst h
        exact ⟨hok1, rfl⟩
      · rcases Option.map_eq_some'.mp h with ⟨a, ha, hb⟩
        subst hb
        exact latestOk_appendAttribute ha hok1 (fun hff => Bool.noConfusion hff)
    | attributeValueSingleQuoted =>
      simp only [hstate] at h
      split_ifs at h
      · injection h with h
        subst h
        exact hok1
      · injection h with h
        subst h
        exact ⟨hok1, rfl⟩
      · rcases Option.map_eq_some'.mp h with ⟨a, ha, hb⟩
        subst hb
        exact latestOk_appendAttribute ha hok1 (fun hff => Bool.noConfusion hff)
    | attributeValueUnquoted =>
      simp only [hstate] at h
      split_ifs at h
      · injection h with h
        subst h
        exact hok1
      · rcases Option.map_eq_some'.mp h with ⟨q, hq, hb⟩
        obtain ⟨tok2, t2⟩ := q
        subst hb
        have hs := takeLatest_spec hq hok1
        exact ⟨hs.2, hs.1⟩
      · injection h with h
        subst h
        exact ⟨hok1, rfl⟩
      · rcases Option.map_eq_some'.mp h with ⟨a, ha, hb⟩
        subst hb
        exact latestOk_appendAttribute ha hok1 (fun hff => Bool.noConfusion hff)
    | afterAttributeValueQuoted =>
      simp only [hstate] at h
      split_ifs at h
      · injection h with h
        subst h
        exact hok1
      · injection h with h
        subst h
        exact hok1
      · rcases Option.map_eq_some'.mp h with ⟨q, hq, hb⟩
        obtain ⟨tok2, t2⟩ := q
        subst hb
        have hs := takeLatest_spec hq hok1
        exact ⟨hs.2, hs.1⟩
      · injection h with h
        subst h
        exact ⟨hok1, rfl⟩
      · injection h with h
        subst h
        exact hok1
    | selfClosingStartTag =>
      simp only [hstate] at h
      split_ifs at h
      · rcases Option.bind_eq_some.mp h with ⟨t2, hset, hmap⟩
        have hok2 := latestOk_setSelfClosing hset hok1
        rcases Option.map_eq_some'.mp hmap with ⟨q, hq, hb⟩
        obtain ⟨tok2, t3⟩ := q
        subst hb
        have hs := takeLatest_spec hq hok2
        exact ⟨hs.2, hs.1⟩
      · injection h with h
        subst h
        exact ⟨hok1, rfl⟩
      · injection h with h
        subst h
        exact hok1
    | scriptData =>
      simp only [hstate] at h
      split_ifs at h
      · injection h with h
        subst h
        exact hok1
      · injection h with h
        subst h
        exact ⟨hok1, rfl⟩
      · injection h with h
        subst h
        exact ⟨hok1, rfl⟩
    | scriptDataLessThanSign =>
      simp only [hstate] at h
      split_ifs at h
      · injection h with h
        subst h
        exact hok1
      · injection h with h
        subst h
        exact ⟨hok1, rfl⟩
    | scriptDataEndTagOpen =>
      simp only [hstate] at h
      split_ifs at h
      · injection h with h
        subst h
        exact latestOk_createTag _ _
      · injection h with h
        subst h
        exact ⟨hok1, rfl⟩
    | scriptDataEndTagName =>
      simp only [hstate] at h
      split_ifs at h
      · rcases Option.map_eq_some'.mp h with ⟨q, hq, hb⟩
        obtain ⟨tok2, t2⟩ := q
        subst hb
        have hs := takeLatest_spec hq hok1
        exact ⟨hs.2, hs.1⟩
      · rcases Option.map_eq_some'.mp h with ⟨a, ha, hb⟩
        subst hb
        exact latestOk_appendTagName ha hok1 (toLower_notUpper c)
      · injection h with h
        subst h
        exact hok1
    | temporaryBuffer =>
      simp only [hstate] at h
      split_ifs at h
      · injection h with h
        subst h
        exact hok1
      · cases hbuf : t.buf with
        | nil =>
          rw [hbuf] at h
          cases h
        | cons c0 rest =>
          rw [hbuf] at h
          injection h with h
          subst h
          exact ⟨hok1, rfl⟩

/-- Claim C7 as amended: every token returned by the `HtmlTokenizer::next`
loop (started from any tokenizer whose in-progress token already has
lowercase tag and attribute names, in particular from a fresh tokenizer,
whose `latest_token` is `None`) has its tag name and all its attribute
names free of ASCII uppercase letters, and the in-progress token of the
resulting tokenizer again has lowercase names.  Attribute VALUES are not
folded: `append_attribute(c, false)` stores `c` verbatim. -/
theorem c7_emitted_token_names_lowercase (fuel : Nat)
    (t t' : HtmlTokenizer) (tok : HtmlToken) (hok : latestOk t = true)
    (h : nextAux fuel t = some (t', tok)) :
    tokNamesLower tok = true ∧ latestOk t' = true := by
  induction fuel generalizing t with
  | zero => cases h
  | succ f ih =>
    rw [nextAux] at h
    cases hi : iter t with
    | none =>
      rw [hi] at h
      cases h
    | some st =>
      have hp := iter_pres t hok st hi
      rw [hi] at h
      cases st with
      | cont t2 => exact ih t2 hp h
      | emit t2 tok2 =>
        injection h with h
        cases h
        exact ⟨hp.2, hp.1⟩

end SabaHtmlTok

/-- Counterexample to claim C7: tokenizing `<p id="A">` emits a start tag
whose attribute value is still the uppercase `['A']` — attribute values
are never folded to lowercase. -/
theorem c7_counterexample :
    SabaHtmlTok.nextAux 50 (SabaHtmlTok.HtmlTokenizer.new Fixtures.inputPAEx)
      = some (Fixtures.tokAfterPAEx,
          .startTag ['p'] false [⟨['i', 'd'], ['A']⟩]) ∧
    SabaHtmlTok.noUpper ['A'] = false := ⟨by decide, by decide⟩

/-- Witness for the amended C7 at the concrete input `<p>`. -/
theorem c7_witness :
    SabaHtmlTok.tokNamesLower (.startTag ['p'] false []) = true ∧
    SabaHtmlTok.latestOk Fixtures.tokAfterPEx = true :=
  SabaHtmlTok.c7_emitted_token_names_lowercase 50
    (SabaHtmlTok.HtmlTokenizer.new Fixtures.inputPEx) Fixtures.tokAfterPEx
    (.startTag ['p'] false []) (by decide) (by decide)
